import Mathlib

/-!
Verification development for the dependency-engine package (worker/dependency).

The engine (source file part_001) is a single-threaded event loop maintaining
a set of installed manifolds and one worker per manifold.  We embed the loop's
state and its handlers (gotInstall, gotStarted, gotStopped, start, stop,
bounceDependents) as pure Lean functions over an explicit state record, with
Go maps modelled as association lists (assignment = replace-or-append, read =
lookup with the zero value as default), Go `error` modelled as `Option Err`
(`none` = nil), and the tomb (shutdown token) modelled by a `dying` flag plus
the recorded termination reason, following the tomb library's documented
semantics: only the first non-nil reason is recorded, and `Kill` with the
`ErrDying` sentinel leaves the recorded reason unchanged.

Driver goroutines are represented by the observable requests the loop makes of
them: the `launched` log records every `go runWorker(name, manifold, delay)`
spawn, and the `wkilled` log records every `worker.Kill()` call issued by loop
code.  The loop itself is embedded as a step function on events (install
ticket, started ticket, stopped ticket, external Kill, observation of the
dying channel) iterated until the loop's exit condition (dying and all
stopped) holds, exactly as in `loop()`.
-/

namespace DependencyEngine

abbrev Name := String
abbrev WorkerId := Nat

/-- Non-nil Go error values reaching the engine: rendered message errors
(`errors.New` / `errors.Errorf`) and the tomb's `ErrDying` sentinel.
A Go `error` is `Option Err`, with `none` for nil. -/
inductive Err where
  | msg (s : String)
  | errDying
deriving DecidableEq, Repr

/-- Association-list lookup: first binding wins (Go map read). -/
def alistLookup {α : Type} : List (Name × α) → Name → Option α
  | [], _ => none
  | (k, v) :: t, x => if k = x then some v else alistLookup t x

/-- Association-list write: replace the binding if present, else append
(Go map assignment). -/
def alistUpdate {α : Type} : List (Name × α) → Name → α → List (Name × α)
  | [], x, v => [(x, v)]
  | (k, w) :: t, x, v => if k = x then (x, v) :: t else (k, w) :: alistUpdate t x v

/-- Lookup with a default (Go map read yielding the zero value on a miss). -/
def alistGetD {α : Type} (l : List (Name × α)) (x : Name) (d : α) : α :=
  (alistLookup l x).getD d

/-- workerInfo: what the engine knows about the worker for a given manifold. -/
structure WorkerInfo where
  starting : Bool := false
  stopping : Bool := false
  worker : Option WorkerId := none
deriving DecidableEq, Repr

/-- Mirrors `workerInfo.stopped`: true unless the worker is either assigned or
starting (mirrors the source's switch). -/
def WorkerInfo.stopped (info : WorkerInfo) : Bool :=
  if info.worker.isSome then false
  else if info.starting then false
  else true

/-- A typed output slot (the `out interface\x7b\x7d` argument); `none` models a
nil interface value.  The slot contents are not interpreted by the engine. -/
abbrev Slot := Option Nat

/-- An output function projects a running worker into a caller-supplied slot;
the boolean is the function's own result.  (Slot mutation is an effect on the
caller's memory, outside the engine's state; only the result is modelled.) -/
def OutputFunc := WorkerId → Slot → Bool

/-- A resource accessor, as handed to a start function. -/
def GetResourceFunc := Name → Slot → Bool

/-- A start function returns exactly one of a worker or a non-absent error.
Modelled from the spec: the Manifold type declaration is not among the given
source files; its fields (`Inputs`, `Start`, `Output`, with `Output` omissible)
are taken from the spec's data model and from every use in part_001. -/
def StartFunc := GetResourceFunc → Option WorkerId × Option Err

/-- Manifold: Inputs, Start, and an optional Output projection. -/
structure Manifold where
  Inputs : List Name
  Start : StartFunc
  Output : Option OutputFunc

/-- The engine's caller-supplied configuration: the fatal predicate and the
two restart delays (durations as naturals). -/
structure Config where
  isFatal : Option Err → Bool
  errorDelay : Nat
  bounceDelay : Nat

/-- The loop-owned engine state, plus the tomb and the logs of observable
requests made to driver goroutines and workers. -/
structure EngineState where
  manifolds : List (Name × Manifold)
  dependents : List (Name × List Name)
  current : List (Name × WorkerInfo)
  /-- Tomb: the Dying channel is closed. -/
  dying : Bool
  /-- The loop has taken its one-shot `<-tomb.Dying()` select branch. -/
  dyingObserved : Bool
  /-- Tomb: `none` = still alive; `some r` = reason `r` recorded (`some none`
  = nil reason). -/
  reason : Option (Option Err)
  /-- Every driver spawn `go runWorker(name, _, delay)`, in order. -/
  launched : List (Name × Nat)
  /-- Every `worker.Kill()` issued by loop code, in order. -/
  wkilled : List WorkerId

/-- Read `engine.current[name]` (zero value on a miss, as in Go). -/
def currentGet (e : EngineState) (name : Name) : WorkerInfo :=
  alistGetD e.current name {}

/-- Read `engine.dependents[name]` (empty slice on a miss, as in Go). -/
def dependentsGet (e : EngineState) (name : Name) : List Name :=
  alistGetD e.dependents name []

/-- Mirrors `tomb.Kill(r)`: record the reason unless a non-nil reason already stands;
`Kill(ErrDying)` keeps the current reason (tomb library semantics). -/
def killT (e : EngineState) (r : Option Err) : EngineState :=
  if r = some Err.errDying then e
  else
    { e with
      dying := true
      reason :=
        match e.reason with
        | none => some r
        | some none => some r
        | some (some x) => some (some x) }

/-- Mirrors `start(name, delay)`: no-op when dying; otherwise check preconditions
(killing the tomb on violation, without returning, exactly as the source
does), mark the entry starting, and spawn the driver. -/
def start (e : EngineState) (name : Name) (delay : Nat) : EngineState :=
  if e.dying then e
  else
    let e1 :=
      if (alistLookup e.manifolds name).isSome then e
      else killT e (some (.msg ("fatal: unknown manifold " ++ name)))
    let info := currentGet e1 name
    let e2 :=
      if info.stopped then e1
      else killT e1 (some (.msg "fatal: trying to start a second %s manifold worker"))
    { e2 with
      current := alistUpdate e2.current name { info with starting := true }
      launched := e2.launched ++ [(name, delay)] }

/-- Mirrors `stop(name)`: no-op if already stopping or stopped; else set stopping and
kill the worker if present. -/
def stop (e : EngineState) (name : Name) : EngineState :=
  let info := currentGet e name
  if info.stopping || info.stopped then e
  else
    let e1 :=
      match info.worker with
      | some w => { e with wkilled := e.wkilled ++ [w] }
      | none => e
    { e1 with current := alistUpdate e1.current name { info with stopping := true } }

/-- One iteration of the `bounceDependents` range loop: start the dependent
if its (live) entry is stopped, else stop it. -/
def bounceStep (cfg : Config) (acc : EngineState) (d : Name) : EngineState :=
  if (currentGet acc d).stopped then start acc d cfg.bounceDelay
  else stop acc d

/-- Mirrors `bounceDependents(name)`: for each dependent, start it if stopped, else
stop it, reading the live state as the Go range loop does. -/
def bounceDependents (cfg : Config) (e : EngineState) (name : Name) :
    EngineState :=
  (dependentsGet e name).foldl (bounceStep cfg) e

/-- Mirrors `gotInstall(name, manifold)`: validate (duplicate name, then first unknown
input, in Inputs order), and on success index the manifold, extend dependents
for each input, initialise the entry, and start with zero delay. -/
def gotInstall (e : EngineState) (name : Name)
    (manifold : Manifold) : Option Err × EngineState :=
  if (alistLookup e.manifolds name).isSome then
    (some (.msg (name ++ " manifold already installed")), e)
  else
    match manifold.Inputs.find? (fun input => (alistLookup e.manifolds input).isNone) with
    | some input =>
      (some (.msg (name ++ " manifold depends on unknown " ++ input ++ " manifold")), e)
    | none =>
      let e1 := { e with manifolds := alistUpdate e.manifolds name manifold }
      let e2 := { e1 with
        dependents := manifold.Inputs.foldl
          (fun deps input => alistUpdate deps input (alistGetD deps input [] ++ [name]))
          e1.dependents }
      let e3 := { e2 with current := alistUpdate e2.current name {} }
      (none, start e3 name 0)

/-- The adopt phase of `gotStarted`: record the fresh worker in the entry
(starting cleared, worker set). -/
def gsAdopt (e : EngineState) (name : Name) (w : WorkerId) : EngineState :=
  { e with
    current := alistUpdate e.current name
      { currentGet e name with starting := false, worker := some w } }

/-- Mirrors `gotStarted(name, worker)`: duplicate worker is a protocol violation
(tomb killed, then — by fallthrough — the fresh worker killed); a stopping
entry or a dying engine just kills the fresh worker; otherwise the worker is
recorded and dependents are bounced. -/
def gotStarted (cfg : Config) (e : EngineState) (name : Name) (w : WorkerId) :
    EngineState :=
  let info := currentGet e name
  if info.worker.isSome then
    let e1 := killT e (some (.msg ("fatal: unexpected " ++ name ++ " manifold worker start")))
    { e1 with wkilled := e1.wkilled ++ [w] }
  else if info.stopping || e.dying then
    { e with wkilled := e.wkilled ++ [w] }
  else
    bounceDependents cfg (gsAdopt e name w) name

/-- Mirrors `gotStopped(name, err)`: a stopped entry is a protocol violation; else the
entry is reset, a fatal error kills the tomb and returns, a non-nil error
requests a delayed restart, a deliberate stop requests a prompt restart, and
finally dependents are bounced if a worker had been present. -/
def gotStopped (cfg : Config) (e : EngineState) (name : Name)
    (err : Option Err) : EngineState :=
  let info := currentGet e name
  if info.stopped then
    killT e (some (.msg "fatal: unexpected %s manifold worker stop"))
  else
    let e1 := { e with current := alistUpdate e.current name {} }
    if cfg.isFatal err then killT e1 err
    else
      let e2 :=
        if err.isSome then start e1 name cfg.errorDelay
        else if info.stopping then start e1 name cfg.bounceDelay
        else e1
      if info.worker.isSome then bounceDependents cfg e2 name else e2

/-- The reset phase of `gotStopped`: `engine.current[name] = workerInfo\x7b\x7d`. -/
def gsReset (e : EngineState) (name : Name) : EngineState :=
  { e with current := alistUpdate e.current name {} }

/-- The restart phase of `gotStopped` (after reset, reached only when the
error is not fatal): a non-nil error requests a restart after errorDelay, a
deliberate stop (stopping was set) requests one after bounceDelay, and a
clean self-stop parks the entry. -/
def gsRestart (cfg : Config) (e : EngineState) (name : Name)
    (err : Option Err) : EngineState :=
  if err.isSome then start (gsReset e name) name cfg.errorDelay
  else if (currentGet e name).stopping then start (gsReset e name) name cfg.bounceDelay
  else gsReset e name

/-- The events the loop selects among, plus the external `Kill()` (which
touches only the tomb and may land between any two loop iterations). -/
inductive Event where
  | install (name : Name) (manifold : Manifold)
  | started (name : Name) (w : WorkerId)
  | stopped (name : Name) (err : Option Err)
  | killEngine
  | observeDying

/-- The loop's one-shot dying branch: `stop` every installed name. -/
def stopAll (e : EngineState) : EngineState :=
  (e.current.map Prod.fst).foldl stop e

/-- One iteration body of `loop()` (or an interleaved external `Kill`). -/
def step (cfg : Config) (e : EngineState) : Event → EngineState
  | .install name m => (gotInstall e name m).2
  | .started name w => gotStarted cfg e name w
  | .stopped name err => gotStopped cfg e name err
  | .killEngine => killT e none
  | .observeDying =>
    if e.dying && !e.dyingObserved then { stopAll e with dyingObserved := true }
    else e

/-- Mirrors `allStopped()`: no workers running or starting. -/
def allStopped (e : EngineState) : Bool :=
  e.current.all (fun p => p.2.stopped)

/-- The loop's exit condition, checked after each event. -/
def loopDone (e : EngineState) : Bool :=
  e.dying && allStopped e

/-- Run the loop over a queue of events, returning the state at loop exit
together with the unprocessed remainder of the queue. -/
def runLoopAux (cfg : Config) : EngineState → List Event → EngineState × List Event
  | e, [] => (e, [])
  | e, ev :: t =>
    let e1 := step cfg e ev
    if loopDone e1 then (e1, t) else runLoopAux cfg e1 t

/-- The engine state built by `NewEngine`. -/
def initE : EngineState :=
  { manifolds := []
    dependents := []
    current := []
    dying := false
    dyingObserved := false
    reason := none
    launched := []
    wkilled := [] }

/-- Mirrors `Wait()`: the tomb's recorded reason (the loop's final `tomb.ErrDying`
return is absorbed by `Kill(ErrDying)`, so a clean shutdown yields nil). -/
def waitResult (e : EngineState) : Option Err :=
  match e.reason with
  | none => none
  | some r => r

/-- The driver's resource accessor over its snapshot maps (`getResource` in
`runWorker`): maps are Go maps of nil-able values, read with a nil default. -/
def getResource (outputs : List (Name × Option OutputFunc))
    (workers : List (Name × Option WorkerId))
    (resourceName : Name) (out : Slot) : Bool :=
  match (alistGetD workers resourceName none) with
  | none => false
  | some w =>
    match (alistGetD outputs resourceName none) with
    | none => decide (out = none)
    | some f => f w out

/-- The snapshot of output functions captured at driver launch. -/
def snapshotOutputs (e : EngineState) (inputs : List Name) :
    List (Name × Option OutputFunc) :=
  inputs.map (fun n => (n, ((alistLookup e.manifolds n).map Manifold.Output).getD none))

/-- The snapshot of input workers captured at driver launch. -/
def snapshotWorkers (e : EngineState) (inputs : List Name) :
    List (Name × Option WorkerId) :=
  inputs.map (fun n => (n, (currentGet e n).worker))

/-- The launches recorded for one particular name in a launch log, as a list
of delays. -/
def launchesForL (l : List (Name × Nat)) (name : Name) : List Nat :=
  (l.filter (fun p => p.1 = name)).map Prod.snd

/-- The launches recorded for one particular name, as a list of delays. -/
def launchesFor (e : EngineState) (name : Name) : List Nat :=
  launchesForL e.launched name

/-- The position of a key in an association list (its installation index:
`alistUpdate` appends fresh keys at the end, so earlier keys have smaller
rank); absent keys get the list's length. -/
def keyRank {α : Type} : List (Name × α) → Name → Nat
  | [], _ => 0
  | (k, _) :: t, x => if k = x then 0 else keyRank t x + 1

/-- Installation rank of a name. -/
def rank (e : EngineState) (x : Name) : Nat := keyRank e.manifolds x

/-- The dependency edge: `a` is a declared input of the installed manifold
`b`. -/
def EdgeTo (e : EngineState) (a b : Name) : Prop :=
  ∃ m, alistLookup e.manifolds b = some m ∧ a ∈ m.Inputs

/-- The dependency-graph invariant: `dependents` is exactly the transpose of
the Inputs relation over the installed manifolds, and every edge strictly
decreases the installation rank (inputs were installed before dependents). -/
def GraphInv (e : EngineState) : Prop :=
  (∀ n d, d ∈ dependentsGet e n ↔
    ∃ m, alistLookup e.manifolds d = some m ∧ n ∈ m.Inputs) ∧
  (∀ d m, alistLookup e.manifolds d = some m →
    ∀ i ∈ m.Inputs, rank e i < rank e d)

/-- An event does not trip the loop's protocol-violation checks: a started
ticket finds an installed entry with no worker, a stopped ticket finds a
non-stopped entry.  In a run where drivers honour their contract (exactly one
stopped report per start, a started report only from a launched driver) every
event is of this shape; a violation is engine misuse, handled separately as a
fatal diagnostic. -/
def cleanEvent (e : EngineState) : Event → Bool
  | .install _ _ => true
  | .started n _ => (alistLookup e.current n).isSome && (currentGet e n).worker.isNone
  | .stopped n _ => !(currentGet e n).stopped
  | .killEngine => true
  | .observeDying => true

/-- Every event of the queue is clean in the state at which it arrives. -/
def cleanTrace (cfg : Config) : EngineState → List Event → Bool
  | _, [] => true
  | e, ev :: t => cleanEvent e ev && cleanTrace cfg (step cfg e ev) t

/-- Invariant: `current` and `manifolds` always have the same domain. -/
def DomInv (e : EngineState) : Prop :=
  ∀ n, (alistLookup e.current n).isSome = (alistLookup e.manifolds n).isSome

/-- Invariant: every member of a dependents list is an installed name. -/
def DepInv (e : EngineState) : Prop :=
  ∀ n d, d ∈ dependentsGet e n → (alistLookup e.manifolds d).isSome = true

/-- The non-nil reason an event contributes to the tomb: a stopped report
whose error is classified fatal contributes that error (a nil error
classified fatal kills the tomb with nil, which leaves the nil-reason state
unchanged, so it contributes nothing). -/
def fatalOf (cfg : Config) : Event → Option Err
  | .stopped _ err => if cfg.isFatal err then err else none
  | _ => none

/-- The first non-nil worker error classified fatal among the stopped events
of a queue. -/
def firstFatal (cfg : Config) (t : List Event) : Option Err :=
  (t.filterMap (fatalOf cfg)).head?

section AlistLemmas

variable {α : Type}

theorem alistLookup_update_self (l : List (Name × α)) (k : Name) (v : α) :
    alistLookup (alistUpdate l k v) k = some v := by
  induction l with
  | nil => simp [alistUpdate, alistLookup]
  | cons p t ih =>
    obtain ⟨k1, w⟩ := p
    by_cases hk : k1 = k <;> simp [alistUpdate, alistLookup, hk, ih]

theorem alistLookup_update_ne (l : List (Name × α)) (k x : Name) (v : α)
    (h : k ≠ x) : alistLookup (alistUpdate l k v) x = alistLookup l x := by
  induction l with
  | nil => simp [alistUpdate, alistLookup, h]
  | cons p t ih =>
    obtain ⟨k1, w⟩ := p
    by_cases hk : k1 = k
    · subst hk
      simp [alistUpdate, alistLookup, h]
    · simp [alistUpdate, alistLookup, hk, ih]

theorem alistLookup_update_isSome (l : List (Name × α)) (k x : Name) (v : α) :
    (alistLookup (alistUpdate l k v) x).isSome =
      ((alistLookup l x).isSome || decide (k = x)) := by
  by_cases hk : k = x
  · subst hk
    simp [alistLookup_update_self]
  · simp [alistLookup_update_ne l k x v hk, hk]

theorem alistUpdate_of_lookup_none (l : List (Name × α)) (k : Name) (v : α)
    (h : alistLookup l k = none) : alistUpdate l k v = l ++ [(k, v)] := by
  induction l with
  | nil => simp [alistUpdate]
  | cons p t ih =>
    obtain ⟨k1, w⟩ := p
    by_cases hk : k1 = k
    · subst hk
      simp [alistLookup] at h
    · simp [alistLookup, hk] at h
      simp [alistUpdate, hk, ih h]

theorem alistLookup_append_ne (l : List (Name × α)) (k x : Name) (v : α)
    (h : k ≠ x) : alistLookup (l ++ [(k, v)]) x = alistLookup l x := by
  induction l with
  | nil => simp [alistLookup, h]
  | cons p t ih =>
    obtain ⟨k1, w⟩ := p
    by_cases hx : k1 = x <;> simp [alistLookup, hx, ih]

theorem alistLookup_append_self (l : List (Name × α)) (k : Name) (v : α)
    (h : alistLookup l k = none) : alistLookup (l ++ [(k, v)]) k = some v := by
  induction l with
  | nil => simp [alistLookup]
  | cons p t ih =>
    obtain ⟨k1, w⟩ := p
    by_cases hk : k1 = k
    · subst hk
      simp [alistLookup] at h
    · simp [alistLookup, hk] at h ⊢
      exact ih h

theorem keyRank_eq_length_of_none (l : List (Name × α)) (x : Name)
    (h : alistLookup l x = none) : keyRank l x = l.length := by
  induction l with
  | nil => simp [keyRank]
  | cons p t ih =>
    obtain ⟨k1, w⟩ := p
    by_cases hx : k1 = x
    · subst hx
      simp [alistLookup] at h
    · simp [alistLookup, hx] at h
      simp [keyRank, hx, ih h]

theorem keyRank_lt_length_of_isSome (l : List (Name × α)) (x : Name)
    (h : (alistLookup l x).isSome = true) : keyRank l x < l.length := by
  induction l with
  | nil => simp [alistLookup] at h
  | cons p t ih =>
    obtain ⟨k1, w⟩ := p
    by_cases hx : k1 = x
    · simp [keyRank, hx]
    · simp [alistLookup, hx] at h
      simp [keyRank, hx]
      exact ih h

theorem keyRank_append_of_isSome (l l2 : List (Name × α)) (x : Name)
    (h : (alistLookup l x).isSome = true) : keyRank (l ++ l2) x = keyRank l x := by
  induction l with
  | nil => simp [alistLookup] at h
  | cons p t ih =>
    obtain ⟨k1, w⟩ := p
    by_cases hx : k1 = x
    · simp [keyRank, hx]
    · simp [alistLookup, hx] at h
      simp [keyRank, hx, ih h]

theorem keyRank_append_self (l : List (Name × α)) (k : Name) (v : α)
    (h : alistLookup l k = none) : keyRank (l ++ [(k, v)]) k = l.length := by
  induction l with
  | nil => simp [keyRank]
  | cons p t ih =>
    obtain ⟨k1, w⟩ := p
    by_cases hk : k1 = k
    · subst hk
      simp [alistLookup] at h
    · simp [alistLookup, hk] at h
      simp [keyRank, hk, ih h]

end AlistLemmas

section InfoLemmas

theorem stopped_iff (info : WorkerInfo) :
    info.stopped = true ↔ (info.worker = none ∧ info.starting = false) := by
  obtain ⟨st, sp, w⟩ := info
  cases w <;> cases st <;> simp [WorkerInfo.stopped]

theorem stopped_empty : ({} : WorkerInfo).stopped = true := rfl

theorem currentGet_of_lookup_none (e : EngineState) (n : Name)
    (h : alistLookup e.current n = none) : currentGet e n = {} := by
  simp [currentGet, alistGetD, h]

theorem lookup_isSome_of_not_stopped (e : EngineState) (n : Name)
    (h : (currentGet e n).stopped = false) :
    (alistLookup e.current n).isSome = true := by
  cases hl : alistLookup e.current n with
  | none => rw [currentGet_of_lookup_none e n hl, stopped_empty] at h; cases h
  | some v => rfl

end InfoLemmas

section FieldLemmas

theorem killT_manifolds (e : EngineState) (r : Option Err) :
    (killT e r).manifolds = e.manifolds := by
  unfold killT; split <;> rfl

theorem killT_dependents (e : EngineState) (r : Option Err) :
    (killT e r).dependents = e.dependents := by
  unfold killT; split <;> rfl

theorem killT_current (e : EngineState) (r : Option Err) :
    (killT e r).current = e.current := by
  unfold killT; split <;> rfl

theorem killT_launched (e : EngineState) (r : Option Err) :
    (killT e r).launched = e.launched := by
  unfold killT; split <;> rfl

theorem killT_wkilled (e : EngineState) (r : Option Err) :
    (killT e r).wkilled = e.wkilled := by
  unfold killT; split <;> rfl

theorem killT_dyingObserved (e : EngineState) (r : Option Err) :
    (killT e r).dyingObserved = e.dyingObserved := by
  unfold killT; split <;> rfl

theorem currentGet_killT (e : EngineState) (r : Option Err) (n : Name) :
    currentGet (killT e r) n = currentGet e n := by
  unfold currentGet alistGetD
  rw [killT_current]

theorem killT_dying_of_dying (e : EngineState) (r : Option Err)
    (h : e.dying = true) : (killT e r).dying = true := by
  unfold killT; split <;> simp [h]

theorem waitResult_killT (e : EngineState) (r : Option Err)
    (h : r ≠ some Err.errDying) :
    waitResult (killT e r) = (waitResult e).or r := by
  unfold killT waitResult
  simp [h]
  match hr : e.reason with
  | none => simp
  | some none => simp
  | some (some x) => simp

theorem start_of_dying (e : EngineState) (name : Name) (delay : Nat)
    (h : e.dying = true) : start e name delay = e := by
  simp [start, h]

/-- Normal form of `start`: the precondition kills touch only the tomb, so
the info read and the final update can be phrased over the original state. -/
theorem start_unfold (e : EngineState) (name : Name) (delay : Nat) :
    start e name delay =
      if e.dying then e
      else
        let e1 :=
          if (alistLookup e.manifolds name).isSome then e
          else killT e (some (.msg ("fatal: unknown manifold " ++ name)))
        let e2 :=
          if (currentGet e name).stopped then e1
          else killT e1 (some (.msg "fatal: trying to start a second %s manifold worker"))
        { e2 with
          current := alistUpdate e2.current name { currentGet e name with starting := true }
          launched := e2.launched ++ [(name, delay)] } := by
  by_cases hd : e.dying
  · simp [start, hd]
  · by_cases hm : (alistLookup e.manifolds name).isSome
    · simp [start, hd, hm]
    · simp [start, hd, hm, currentGet_killT]

theorem start_fields (e : EngineState) (name : Name) (delay : Nat) :
    (start e name delay).manifolds = e.manifolds ∧
    (start e name delay).dependents = e.dependents ∧
    (start e name delay).wkilled = e.wkilled ∧
    (start e name delay).dyingObserved = e.dyingObserved := by
  rw [start_unfold]
  by_cases hd : e.dying
  · simp [hd]
  · by_cases hm : (alistLookup e.manifolds name).isSome <;>
      by_cases hs : (currentGet e name).stopped <;>
      simp [hd, hm, hs, killT_manifolds, killT_dependents, killT_wkilled,
        killT_dyingObserved]

theorem start_launched (e : EngineState) (name : Name) (delay : Nat) :
    (start e name delay).launched =
      if e.dying then e.launched else e.launched ++ [(name, delay)] := by
  rw [start_unfold]
  by_cases hd : e.dying
  · simp [hd]
  · by_cases hm : (alistLookup e.manifolds name).isSome <;>
      by_cases hs : (currentGet e name).stopped <;>
      simp [hd, hm, hs, killT_launched]

theorem start_currentGet_ne (e : EngineState) (name x : Name) (delay : Nat)
    (h : name ≠ x) : currentGet (start e name delay) x = currentGet e x := by
  rw [start_unfold]
  by_cases hd : e.dying
  · simp [hd]
  · by_cases hm : (alistLookup e.manifolds name).isSome <;>
      by_cases hs : (currentGet e name).stopped <;>
      simp only [hd, hm, hs, if_true, if_false, Bool.false_eq_true,
        not_false_eq_true, ite_true, ite_false] <;>
      simp [currentGet, alistGetD, killT_current, alistLookup_update_ne _ _ _ _ h]

theorem start_currentGet_self (e : EngineState) (name : Name) (delay : Nat) :
    currentGet (start e name delay) name =
      if e.dying then currentGet e name
      else { currentGet e name with starting := true } := by
  rw [start_unfold]
  by_cases hd : e.dying
  · simp [hd]
  · by_cases hm : (alistLookup e.manifolds name).isSome <;>
      by_cases hs : (currentGet e name).stopped <;>
      simp only [hd, hm, hs, if_true, if_false, Bool.false_eq_true,
        not_false_eq_true, ite_true, ite_false] <;>
      simp [currentGet, alistGetD, killT_current, alistLookup_update_self]

theorem start_noKill (e : EngineState) (name : Name) (delay : Nat)
    (hm : (alistLookup e.manifolds name).isSome = true)
    (hs : (currentGet e name).stopped = true) :
    (start e name delay).reason = e.reason ∧
    (start e name delay).dying = e.dying := by
  rw [start_unfold]
  by_cases hd : e.dying
  · simp [hd]
  · simp [hd, hm, hs]

theorem stop_fields (e : EngineState) (name : Name) :
    (stop e name).manifolds = e.manifolds ∧
    (stop e name).dependents = e.dependents ∧
    (stop e name).launched = e.launched ∧
    (stop e name).reason = e.reason ∧
    (stop e name).dying = e.dying ∧
    (stop e name).dyingObserved = e.dyingObserved := by
  cases hinfo : currentGet e name with
  | mk st sp w =>
    cases sp <;> cases w <;> cases st <;>
      simp [stop, hinfo, WorkerInfo.stopped]

theorem stop_currentGet_ne (e : EngineState) (name x : Name) (h : name ≠ x) :
    currentGet (stop e name) x = currentGet e x := by
  cases hinfo : currentGet e name with
  | mk st sp w =>
    cases sp <;> cases w <;> cases st <;>
      simp [stop, hinfo, WorkerInfo.stopped] <;>
      simp [currentGet, alistGetD, alistLookup_update_ne _ _ _ _ h]

theorem launchesForL_append_ne (l : List (Name × Nat)) (d x : Name) (δ : Nat)
    (h : d ≠ x) : launchesForL (l ++ [(d, δ)]) x = launchesForL l x := by
  simp [launchesForL, List.filter_append, h]

theorem launchesForL_append_self (l : List (Name × Nat)) (x : Name) (δ : Nat) :
    launchesForL (l ++ [(x, δ)]) x = launchesForL l x ++ [δ] := by
  simp [launchesForL, List.filter_append]

theorem launchesFor_start_ne (e : EngineState) (name x : Name) (delay : Nat)
    (h : name ≠ x) : launchesFor (start e name delay) x = launchesFor e x := by
  unfold launchesFor
  rw [start_launched]
  by_cases hd : e.dying
  · simp [hd]
  · simp [hd, launchesForL_append_ne _ _ _ _ h]

theorem launchesFor_start_self (e : EngineState) (name : Name) (delay : Nat) :
    launchesFor (start e name delay) name =
      if e.dying then launchesFor e name
      else launchesFor e name ++ [delay] := by
  unfold launchesFor
  rw [start_launched]
  by_cases hd : e.dying
  · simp [hd]
  · simp [hd, launchesForL_append_self]

theorem DomInv_update (e : EngineState) (k : Name) (v : WorkerInfo)
    (hD : DomInv e) (hk : (alistLookup e.manifolds k).isSome = true) (n : Name) :
    (alistLookup (alistUpdate e.current k v) n).isSome =
      (alistLookup e.manifolds n).isSome := by
  rw [alistLookup_update_isSome]
  by_cases hkn : k = n
  · subst hkn
    simp [hD k, hk]
  · simp [hkn, hD n]

end FieldLemmas

section BounceLemmas

theorem bounceStep_graph (cfg : Config) (acc : EngineState) (d : Name) :
    (bounceStep cfg acc d).manifolds = acc.manifolds ∧
    (bounceStep cfg acc d).dependents = acc.dependents ∧
    (bounceStep cfg acc d).dyingObserved = acc.dyingObserved := by
  unfold bounceStep
  by_cases hs : (currentGet acc d).stopped <;> simp [hs]
  · exact ⟨(start_fields _ _ _).1, (start_fields _ _ _).2.1,
      (start_fields _ _ _).2.2.2⟩
  · exact ⟨(stop_fields _ _).1, (stop_fields _ _).2.1,
      (stop_fields _ _).2.2.2.2.2⟩

theorem bounceStep_noKill (cfg : Config) (acc : EngineState) (d : Name)
    (hm : (alistLookup acc.manifolds d).isSome = true) :
    (bounceStep cfg acc d).reason = acc.reason ∧
    (bounceStep cfg acc d).dying = acc.dying := by
  unfold bounceStep
  by_cases hs : (currentGet acc d).stopped <;> simp [hs]
  · exact start_noKill acc d cfg.bounceDelay hm hs
  · exact ⟨(stop_fields _ _).2.2.2.1, (stop_fields _ _).2.2.2.2.1⟩

theorem bounceStep_dying (cfg : Config) (acc : EngineState) (d : Name)
    (h : acc.dying = true) :
    (bounceStep cfg acc d).launched = acc.launched ∧
    (bounceStep cfg acc d).dying = true := by
  unfold bounceStep
  by_cases hs : (currentGet acc d).stopped <;> simp [hs]
  · rw [start_of_dying acc d cfg.bounceDelay h]
    exact ⟨rfl, h⟩
  · refine ⟨(stop_fields _ _).2.2.1, ?_⟩
    rw [(stop_fields _ _).2.2.2.2.1]
    exact h

theorem bounceStep_launchesFor_ne (cfg : Config) (acc : EngineState) (d x : Name)
    (h : d ≠ x) :
    launchesFor (bounceStep cfg acc d) x = launchesFor acc x := by
  unfold bounceStep
  by_cases hs : (currentGet acc d).stopped <;> simp [hs]
  · exact launchesFor_start_ne acc d x cfg.bounceDelay h
  · unfold launchesFor
    rw [(stop_fields _ _).2.2.1]

theorem bounceStep_currentGet_ne (cfg : Config) (acc : EngineState) (d x : Name)
    (h : d ≠ x) :
    currentGet (bounceStep cfg acc d) x = currentGet acc x := by
  unfold bounceStep
  by_cases hs : (currentGet acc d).stopped <;> simp [hs]
  · exact start_currentGet_ne acc d x cfg.bounceDelay h
  · exact stop_currentGet_ne acc d x h

theorem bounceStep_DomInv (cfg : Config) (acc : EngineState) (d : Name)
    (hD : DomInv acc) (hm : (alistLookup acc.manifolds d).isSome = true) :
    DomInv (bounceStep cfg acc d) := by
  intro n
  unfold bounceStep
  by_cases hs : (currentGet acc d).stopped <;> simp [hs]
  · rw [(start_fields _ _ _).1, start_unfold]
    by_cases hd : acc.dying
    · simp [hd]
      exact hD n
    · simp [hd, hm, hs]
      exact DomInv_update acc d _ hD hm n
  · rw [(stop_fields _ _).1]
    unfold stop
    by_cases hc : ((currentGet acc d).stopping || (currentGet acc d).stopped)
    · simp [hc]
      exact hD n
    · cases hw : (currentGet acc d).worker <;> simp [hc, hw] <;>
        exact DomInv_update acc d _ hD hm n

theorem DepInv_of_graph (e1 e2 : EngineState) (hm : e2.manifolds = e1.manifolds)
    (hd : e2.dependents = e1.dependents) (h : DepInv e1) : DepInv e2 := by
  intro n d hmem
  simp only [dependentsGet, alistGetD, hd, hm] at hmem ⊢
  exact h n d hmem

theorem bounceFold_graph (cfg : Config) (l : List Name) :
    ∀ acc : EngineState,
      (l.foldl (bounceStep cfg) acc).manifolds = acc.manifolds ∧
      (l.foldl (bounceStep cfg) acc).dependents = acc.dependents ∧
      (l.foldl (bounceStep cfg) acc).dyingObserved = acc.dyingObserved := by
  induction l with
  | nil => intro acc; exact ⟨rfl, rfl, rfl⟩
  | cons d t ih =>
    intro acc
    have h1 := bounceStep_graph cfg acc d
    have h2 := ih (bounceStep cfg acc d)
    simp only [List.foldl_cons]
    exact ⟨h2.1.trans h1.1, h2.2.1.trans h1.2.1, h2.2.2.trans h1.2.2⟩

theorem bounceFold_noKill (cfg : Config) (l : List Name) :
    ∀ acc : EngineState,
      (∀ d ∈ l, (alistLookup acc.manifolds d).isSome = true) →
      (l.foldl (bounceStep cfg) acc).reason = acc.reason ∧
      (l.foldl (bounceStep cfg) acc).dying = acc.dying := by
  induction l with
  | nil => intro acc _; exact ⟨rfl, rfl⟩
  | cons d t ih =>
    intro acc hm
    have h1 := bounceStep_noKill cfg acc d (hm d (by simp))
    have hm2 : ∀ x ∈ t, (alistLookup (bounceStep cfg acc d).manifolds x).isSome = true := by
      intro x hx
      rw [(bounceStep_graph cfg acc d).1]
      exact hm x (by simp [hx])
    have h2 := ih (bounceStep cfg acc d) hm2
    simp only [List.foldl_cons]
    exact ⟨h2.1.trans h1.1, h2.2.trans h1.2⟩

theorem bounceFold_dying (cfg : Config) (l : List Name) :
    ∀ acc : EngineState, acc.dying = true →
      (l.foldl (bounceStep cfg) acc).launched = acc.launched ∧
      (l.foldl (bounceStep cfg) acc).dying = true := by
  induction l with
  | nil => intro acc h; exact ⟨rfl, h⟩
  | cons d t ih =>
    intro acc h
    have h1 := bounceStep_dying cfg acc d h
    have h2 := ih (bounceStep cfg acc d) h1.2
    simp only [List.foldl_cons]
    exact ⟨h2.1.trans h1.1, h2.2⟩

theorem bounceFold_launchesFor (cfg : Config) (l : List Name) (x : Name)
    (hx : x ∉ l) :
    ∀ acc : EngineState,
      launchesFor (l.foldl (bounceStep cfg) acc) x = launchesFor acc x := by
  induction l with
  | nil => intro acc; rfl
  | cons d t ih =>
    intro acc
    have hdx : d ≠ x := by
      intro hcon
      exact hx (by simp [hcon])
    have hx2 : x ∉ t := by
      intro hcon
      exact hx (by simp [hcon])
    simp only [List.foldl_cons]
    rw [ih hx2 (bounceStep cfg acc d), bounceStep_launchesFor_ne cfg acc d x hdx]

theorem bounceFold_currentGet (cfg : Config) (l : List Name) (x : Name)
    (hx : x ∉ l) :
    ∀ acc : EngineState,
      currentGet (l.foldl (bounceStep cfg) acc) x = currentGet acc x := by
  induction l with
  | nil => intro acc; rfl
  | cons d t ih =>
    intro acc
    have hdx : d ≠ x := by
      intro hcon
      exact hx (by simp [hcon])
    have hx2 : x ∉ t := by
      intro hcon
      exact hx (by simp [hcon])
    simp only [List.foldl_cons]
    rw [ih hx2 (bounceStep cfg acc d), bounceStep_currentGet_ne cfg acc d x hdx]

theorem bounceFold_DomInv (cfg : Config) (l : List Name) :
    ∀ acc : EngineState, DomInv acc →
      (∀ d ∈ l, (alistLookup acc.manifolds d).isSome = true) →
      DomInv (l.foldl (bounceStep cfg) acc) := by
  induction l with
  | nil => intro acc hD _; exact hD
  | cons d t ih =>
    intro acc hD hm
    have hD2 := bounceStep_DomInv cfg acc d hD (hm d (by simp))
    have hm2 : ∀ x ∈ t, (alistLookup (bounceStep cfg acc d).manifolds x).isSome = true := by
      intro x hx
      rw [(bounceStep_graph cfg acc d).1]
      exact hm x (by simp [hx])
    simp only [List.foldl_cons]
    exact ih (bounceStep cfg acc d) hD2 hm2

end BounceLemmas

section GotStoppedLemmas

theorem dependentsGet_eq_of (e1 e2 : EngineState)
    (h : e1.dependents = e2.dependents) (n : Name) :
    dependentsGet e1 n = dependentsGet e2 n := by
  simp [dependentsGet, alistGetD, h]

theorem gsReset_dependents (e : EngineState) (name : Name) :
    (gsReset e name).dependents = e.dependents := rfl

theorem gsReset_launched (e : EngineState) (name : Name) :
    (gsReset e name).launched = e.launched := rfl

theorem gsReset_dying (e : EngineState) (name : Name) :
    (gsReset e name).dying = e.dying := rfl

theorem currentGet_gsReset_self (e : EngineState) (name : Name) :
    currentGet (gsReset e name) name = {} := by
  simp [gsReset, currentGet, alistGetD, alistLookup_update_self]

theorem gotStopped_eq (cfg : Config) (e : EngineState) (name : Name)
    (err : Option Err) (h1 : (currentGet e name).stopped = false) :
    gotStopped cfg e name err =
      if cfg.isFatal err then killT (gsReset e name) err
      else if (currentGet e name).worker.isSome then
        bounceDependents cfg (gsRestart cfg e name err) name
      else gsRestart cfg e name err := by
  simp only [gotStopped, h1, gsRestart, gsReset, Bool.false_eq_true, if_false]

theorem gsRestart_dependents (cfg : Config) (e : EngineState) (name : Name)
    (err : Option Err) :
    (gsRestart cfg e name err).dependents = e.dependents := by
  unfold gsRestart
  by_cases hs : err.isSome <;> by_cases hsp : (currentGet e name).stopping <;>
    simp [hs, hsp, (start_fields _ _ _).2.1, gsReset_dependents]

theorem gsRestart_launchesFor_self (cfg : Config) (e : EngineState)
    (name : Name) (err : Option Err) :
    launchesFor (gsRestart cfg e name err) name =
      if err.isSome then
        (if e.dying then launchesFor e name
         else launchesFor e name ++ [cfg.errorDelay])
      else if (currentGet e name).stopping then
        (if e.dying then launchesFor e name
         else launchesFor e name ++ [cfg.bounceDelay])
      else launchesFor e name := by
  unfold gsRestart
  by_cases hs : err.isSome <;> by_cases hsp : (currentGet e name).stopping <;>
    simp [hs, hsp, launchesFor_start_self, gsReset_dying] <;>
    simp [launchesFor, gsReset_launched]

theorem gsRestart_currentGet_self (cfg : Config) (e : EngineState)
    (name : Name) (err : Option Err) :
    currentGet (gsRestart cfg e name err) name =
      if (err.isSome || (currentGet e name).stopping) then
        (if e.dying then {} else ({ starting := true } : WorkerInfo))
      else {} := by
  unfold gsRestart
  by_cases hs : err.isSome <;> by_cases hsp : (currentGet e name).stopping <;>
    simp [hs, hsp, start_currentGet_self, gsReset_dying, currentGet_gsReset_self]

end GotStoppedLemmas

section ClaimC2

/-- C2: an install request (name, manifold) fails if and only if the name is
already present in `manifolds` or some declared input is not present in
`manifolds`; the unknown-input failure carries the message
"<name> manifold depends on unknown <input> manifold" (for the first unknown
input in declaration order); and on failure the engine state is returned
unchanged — in particular no entry is added to `manifolds`, `dependents` or
`current` and no driver is launched. -/
theorem install_validation (e : EngineState) (name : Name) (m : Manifold) :
    ((gotInstall e name m).1.isSome =
      ((alistLookup e.manifolds name).isSome ||
        m.Inputs.any (fun i => (alistLookup e.manifolds i).isNone))) ∧
    ((gotInstall e name m).1.isSome = true → (gotInstall e name m).2 = e) ∧
    (∀ i, (alistLookup e.manifolds name).isSome = false →
      m.Inputs.find? (fun input => (alistLookup e.manifolds input).isNone) = some i →
      (gotInstall e name m).1 =
        some (.msg (name ++ " manifold depends on unknown " ++ i ++ " manifold"))) := by
  by_cases hdup : (alistLookup e.manifolds name).isSome
  · refine ⟨by simp [gotInstall, hdup], fun _ => by simp [gotInstall, hdup],
      fun i hno _ => ?_⟩
    rw [hdup] at hno
    cases hno
  · cases hfind : m.Inputs.find? (fun input => (alistLookup e.manifolds input).isNone) with
    | some i =>
      have hmem : i ∈ m.Inputs := List.mem_of_find?_eq_some hfind
      have hprop := List.find?_some hfind
      refine ⟨?_, fun _ => by simp [gotInstall, hdup, hfind], ?_⟩
      · simp [gotInstall, hdup, hfind, List.any_eq_true]
        exact ⟨i, hmem, by simpa using hprop⟩
      · intro j _ hj
        injection hj with hji
        subst hji
        simp [gotInstall, hdup, hfind]
    | none =>
      have hall : ∀ a ∈ m.Inputs, (alistLookup e.manifolds a).isSome = true := by
        intro a ha
        have h1 := List.find?_eq_none.mp hfind a ha
        simp at h1
        exact Option.ne_none_iff_isSome.mp h1
      refine ⟨?_, ?_, ?_⟩
      · simp [gotInstall, hdup, hfind, List.any_eq_true]
        intro x hx
        exact Option.ne_none_iff_isSome.mpr (hall x hx)
      · intro hcon
        simp [gotInstall, hdup, hfind] at hcon
      · intro j _ hj
        exact Option.noConfusion hj

/-- Witness: installing "B" with declared input "A" into the fresh engine
fails synchronously with the unknown-input message. -/
theorem install_validation_witness :
    (gotInstall initE "B"
        { Inputs := ["A"], Start := fun _ => (none, some (.msg "unused")), Output := none }).1 =
      some (.msg "B manifold depends on unknown A manifold") :=
  (install_validation initE "B"
    { Inputs := ["A"], Start := fun _ => (none, some (.msg "unused")), Output := none }).2.2
    "A" rfl rfl

end ClaimC2

section ClaimC4

/-- C4: for every name, `bounceDependents(name)` walks exactly the list
`dependents[name]`, and for each dependent `d` in turn calls
`start(d, bounceDelay)` when the (live) entry `current[d]` satisfies the
stopped predicate and calls `stop(d)` otherwise.  The rule takes no
information about the trigger, so it is uniform regardless of whether the
trigger was the named worker appearing or disappearing. -/
theorem bounceDependents_rule (cfg : Config) (e : EngineState) (name : Name) :
    bounceDependents cfg e name =
      (dependentsGet e name).foldl
        (fun acc d =>
          if (currentGet acc d).stopped then start acc d cfg.bounceDelay
          else stop acc d) e := by
  unfold bounceDependents bounceStep
  rfl

end ClaimC4

section ClaimC6

/-- C6: the resource accessor handed to a start function returns false when
the snapshot records no running worker for the requested input; returns true
(slot untouched — the model is pure, so only the boolean result is recorded)
when the snapshot worker is present, the caller passed an absent slot, and
the input declares no output projection; and otherwise, when the input
declares an output function, returns the result of invoking that function on
the snapshot worker and the slot.  (In the one remaining combination — worker
present, no projection declared, non-absent slot — there is no output
function to invoke and the code returns false.) -/
theorem getResource_cases (outputs : List (Name × Option OutputFunc))
    (workers : List (Name × Option WorkerId)) (resourceName : Name) (out : Slot) :
    (alistGetD workers resourceName none = none →
      getResource outputs workers resourceName out = false) ∧
    (∀ w, alistGetD workers resourceName none = some w → out = none →
      alistGetD outputs resourceName none = none →
      getResource outputs workers resourceName out = true) ∧
    (∀ w f, alistGetD workers resourceName none = some w →
      alistGetD outputs resourceName none = some f →
      getResource outputs workers resourceName out = f w out) := by
  refine ⟨?_, ?_, ?_⟩
  · intro h
    simp [getResource, h]
  · intro w hw hout hop
    subst hout
    simp [getResource, hw, hop]
  · intro w f hw hop
    simp [getResource, hw, hop]

/-- Witness: with a snapshot recording worker 5 for input "A" and no output
projection, the accessor called with an absent slot returns true. -/
theorem getResource_cases_witness :
    getResource [("A", none)] [("A", some 5)] "A" none = true :=
  (getResource_cases [("A", none)] [("A", some 5)] "A" none).2.1 5 rfl rfl rfl

end ClaimC6

section ClaimC1

/-- C1 counterexample: in a dying engine (reached by installing "w", its
worker starting, and then `Kill()`), a stopped notification for "w" carrying
the non-absent, non-fatal error `ErrDying` — the routine shutdown report of a
cancelled driver — relaunches nothing: `start` observes the dying token and
returns, so the launch log keeps exactly the single original launch, where
the claim as stated demands a relaunch with errorDelay. -/
theorem gotStopped_relaunch_claim_cex :
    (currentGet
        (runLoopAux { isFatal := fun _ => false, errorDelay := 5, bounceDelay := 2 } initE
          [.install "w" { Inputs := [], Start := fun _ => (none, none), Output := none },
           .started "w" 3, .killEngine]).1 "w").stopped = false ∧
    (some Err.errDying : Option Err).isSome = true ∧
    (fun (_ : Option Err) => false) (some Err.errDying) = false ∧
    (runLoopAux { isFatal := fun _ => false, errorDelay := 5, bounceDelay := 2 } initE
        [.install "w" { Inputs := [], Start := fun _ => (none, none), Output := none },
         .started "w" 3, .killEngine]).1.dying = true ∧
    launchesFor
      (gotStopped { isFatal := fun _ => false, errorDelay := 5, bounceDelay := 2 }
        (runLoopAux { isFatal := fun _ => false, errorDelay := 5, bounceDelay := 2 } initE
          [.install "w" { Inputs := [], Start := fun _ => (none, none), Output := none },
           .started "w" 3, .killEngine]).1
        "w" (some Err.errDying)) "w" = [0] ∧
    launchesFor
      (runLoopAux { isFatal := fun _ => false, errorDelay := 5, bounceDelay := 2 } initE
        [.install "w" { Inputs := [], Start := fun _ => (none, none), Output := none },
         .started "w" 3, .killEngine]).1 "w" = [0] := by
  refine ⟨by decide, by decide, by decide, by decide, by decide, by decide⟩

/-- C1 (amended): for every stopped notification (name, err) handled on an
entry that is not already stopped, with name not its own dependent (as
install-time validation guarantees): the entry is reset to empty; then if err
satisfies the fatal predicate the shutdown token is killed with that error
and no driver is relaunched for name; otherwise if err is non-absent a
relaunch of name with delay errorDelay is requested, which launches a driver
exactly when the engine is not already dying (during shutdown `start` is a
no-op); otherwise if the entry had stopping set a relaunch with bounceDelay
is requested under the same proviso; otherwise (err absent, stopping false)
no driver is relaunched for name and the entry stays empty. -/
theorem gotStopped_rules (cfg : Config) (e : EngineState) (name : Name)
    (err : Option Err)
    (h1 : (currentGet e name).stopped = false)
    (h2 : name ∉ dependentsGet e name) :
    (cfg.isFatal err = true →
      gotStopped cfg e name err = killT (gsReset e name) err ∧
      launchesFor (gotStopped cfg e name err) name = launchesFor e name ∧
      currentGet (gotStopped cfg e name err) name = {}) ∧
    (cfg.isFatal err = false → err.isSome = true →
      launchesFor (gotStopped cfg e name err) name =
        (if e.dying then launchesFor e name
         else launchesFor e name ++ [cfg.errorDelay]) ∧
      currentGet (gotStopped cfg e name err) name =
        (if e.dying then {} else ({ starting := true } : WorkerInfo))) ∧
    (cfg.isFatal err = false → err = none → (currentGet e name).stopping = true →
      launchesFor (gotStopped cfg e name err) name =
        (if e.dying then launchesFor e name
         else launchesFor e name ++ [cfg.bounceDelay]) ∧
      currentGet (gotStopped cfg e name err) name =
        (if e.dying then {} else ({ starting := true } : WorkerInfo))) ∧
    (cfg.isFatal err = false → err = none → (currentGet e name).stopping = false →
      launchesFor (gotStopped cfg e name err) name = launchesFor e name ∧
      currentGet (gotStopped cfg e name err) name = {}) := by
  have hdep : dependentsGet (gsRestart cfg e name err) name = dependentsGet e name :=
    dependentsGet_eq_of _ _ (gsRestart_dependents cfg e name err) name
  have hnb : name ∉ dependentsGet (gsRestart cfg e name err) name := by
    rw [hdep]; exact h2
  have hshape := gotStopped_eq cfg e name err h1
  refine ⟨?_, ?_, ?_, ?_⟩
  · intro hfat
    rw [hshape]
    simp only [hfat, if_true]
    refine ⟨trivial, ?_, ?_⟩
    · unfold launchesFor
      rw [killT_launched, gsReset_launched]
    · rw [currentGet_killT, currentGet_gsReset_self]
  · intro hfat hsome
    rw [hshape]
    simp only [hfat, Bool.false_eq_true, if_false]
    by_cases hw : (currentGet e name).worker.isSome
    · simp only [hw, if_true]
      constructor
      · rw [show launchesFor (bounceDependents cfg (gsRestart cfg e name err) name) name
            = launchesFor (gsRestart cfg e name err) name from
            bounceFold_launchesFor cfg _ name hnb _]
        rw [gsRestart_launchesFor_self]
        simp [hsome]
      · rw [show currentGet (bounceDependents cfg (gsRestart cfg e name err) name) name
            = currentGet (gsRestart cfg e name err) name from
            bounceFold_currentGet cfg _ name hnb _]
        rw [gsRestart_currentGet_self]
        simp [hsome]
    · simp only [hw, Bool.false_eq_true, if_false]
      constructor
      · rw [gsRestart_launchesFor_self]
        simp [hsome]
      · rw [gsRestart_currentGet_self]
        simp [hsome]
  · intro hfat hnone hsp
    rw [hshape]
    simp only [hfat, Bool.false_eq_true, if_false]
    by_cases hw : (currentGet e name).worker.isSome
    · simp only [hw, if_true]
      constructor
      · rw [show launchesFor (bounceDependents cfg (gsRestart cfg e name err) name) name
            = launchesFor (gsRestart cfg e name err) name from
            bounceFold_launchesFor cfg _ name hnb _]
        rw [gsRestart_launchesFor_self]
        simp [hnone, hsp]
      · rw [show currentGet (bounceDependents cfg (gsRestart cfg e name err) name) name
            = currentGet (gsRestart cfg e name err) name from
            bounceFold_currentGet cfg _ name hnb _]
        rw [gsRestart_currentGet_self]
        simp [hnone, hsp]
    · simp only [hw, Bool.false_eq_true, if_false]
      constructor
      · rw [gsRestart_launchesFor_self]
        simp [hnone, hsp]
      · rw [gsRestart_currentGet_self]
        simp [hnone, hsp]
  · intro hfat hnone hsp
    rw [hshape]
    simp only [hfat, Bool.false_eq_true, if_false]
    by_cases hw : (currentGet e name).worker.isSome
    · simp only [hw, if_true]
      constructor
      · rw [show launchesFor (bounceDependents cfg (gsRestart cfg e name err) name) name
            = launchesFor (gsRestart cfg e name err) name from
            bounceFold_launchesFor cfg _ name hnb _]
        rw [gsRestart_launchesFor_self]
        simp [hnone, hsp]
      · rw [show currentGet (bounceDependents cfg (gsRestart cfg e name err) name) name
            = currentGet (gsRestart cfg e name err) name from
            bounceFold_currentGet cfg _ name hnb _]
        rw [gsRestart_currentGet_self]
        simp [hnone, hsp]
    · simp only [hw, Bool.false_eq_true, if_false]
      constructor
      · rw [gsRestart_launchesFor_self]
        simp [hnone, hsp]
      · rw [gsRestart_currentGet_self]
        simp [hnone, hsp]

/-- Witness for the amended C1 rules: a live engine with a running worker for
"w" that reports a non-fatal transient error gets exactly one relaunch of "w"
with errorDelay appended to its launch log. -/
theorem gotStopped_rules_witness :
    launchesFor
      (gotStopped { isFatal := fun _ => false, errorDelay := 5, bounceDelay := 2 }
        (runLoopAux { isFatal := fun _ => false, errorDelay := 5, bounceDelay := 2 } initE
          [.install "w" { Inputs := [], Start := fun _ => (none, none), Output := none },
           .started "w" 3]).1
        "w" (some (.msg "transient"))) "w" = [0, 5] := by
  have h := (gotStopped_rules { isFatal := fun _ => false, errorDelay := 5, bounceDelay := 2 }
    (runLoopAux { isFatal := fun _ => false, errorDelay := 5, bounceDelay := 2 } initE
      [.install "w" { Inputs := [], Start := fun _ => (none, none), Output := none },
       .started "w" 3]).1
    "w" (some (.msg "transient")) (by decide) (by decide)).2.1 rfl rfl
  rw [h.1]
  decide

end ClaimC1

section ClaimC5

/-- C5 counterexample: in an engine where "b" depends on "a", both running,
a stopped notification for "a" carrying a fatal error does NOT bounce the
dependent "b": the handler returns right after initiating shutdown, so "b"
keeps its worker, its stopping flag stays false, and no worker kill is
issued — where the claim (which says dependents are bounced even when the
error is classified fatal) demands stop("b"), i.e. stopping set and worker 2
killed. -/
theorem gotStopped_fatal_no_bounce_cex :
    "b" ∈ dependentsGet
      (runLoopAux { isFatal := fun err => err = some (.msg "boom"), errorDelay := 5, bounceDelay := 2 }
        initE
        [.install "a" { Inputs := [], Start := fun _ => (none, none), Output := none },
         .started "a" 1,
         .install "b" { Inputs := ["a"], Start := fun _ => (none, none), Output := none },
         .started "b" 2]).1 "a" ∧
    (currentGet
      (runLoopAux { isFatal := fun err => err = some (.msg "boom"), errorDelay := 5, bounceDelay := 2 }
        initE
        [.install "a" { Inputs := [], Start := fun _ => (none, none), Output := none },
         .started "a" 1,
         .install "b" { Inputs := ["a"], Start := fun _ => (none, none), Output := none },
         .started "b" 2]).1 "a").worker = some 1 ∧
    ({ isFatal := fun err => err = some (.msg "boom"), errorDelay := 5, bounceDelay := 2 : Config}).isFatal
      (some (.msg "boom")) = true ∧
    currentGet
      (gotStopped { isFatal := fun err => err = some (.msg "boom"), errorDelay := 5, bounceDelay := 2 }
        (runLoopAux { isFatal := fun err => err = some (.msg "boom"), errorDelay := 5, bounceDelay := 2 }
          initE
          [.install "a" { Inputs := [], Start := fun _ => (none, none), Output := none },
           .started "a" 1,
           .install "b" { Inputs := ["a"], Start := fun _ => (none, none), Output := none },
           .started "b" 2]).1
        "a" (some (.msg "boom"))) "b" =
      { starting := false, stopping := false, worker := some 2 } ∧
    (gotStopped { isFatal := fun err => err = some (.msg "boom"), errorDelay := 5, bounceDelay := 2 }
      (runLoopAux { isFatal := fun err => err = some (.msg "boom"), errorDelay := 5, bounceDelay := 2 }
        initE
        [.install "a" { Inputs := [], Start := fun _ => (none, none), Output := none },
         .started "a" 1,
         .install "b" { Inputs := ["a"], Start := fun _ => (none, none), Output := none },
         .started "b" 2]).1
      "a" (some (.msg "boom"))).wkilled = [] := by
  refine ⟨by decide, by decide, by decide, by decide, by decide⟩

/-- C5 (amended): for every stopped notification whose entry had a running
worker present at the moment of the notification, the handling bounces every
dependent of the name exactly when the reported error is NOT classified
fatal; when it is fatal, the handler stops at shutdown initiation and
dependents are not bounced. -/
theorem gotStopped_bounce_rule (cfg : Config) (e : EngineState) (name : Name)
    (err : Option Err) (w : WorkerId)
    (hw : (currentGet e name).worker = some w) :
    (cfg.isFatal err = false →
      gotStopped cfg e name err =
        bounceDependents cfg (gsRestart cfg e name err) name) ∧
    (cfg.isFatal err = true →
      gotStopped cfg e name err = killT (gsReset e name) err) := by
  have h1 : (currentGet e name).stopped = false := by
    simp [WorkerInfo.stopped, hw]
  have hshape := gotStopped_eq cfg e name err h1
  constructor
  · intro hfat
    rw [hshape]
    simp [hfat, hw]
  · intro hfat
    rw [hshape]
    simp [hfat]

/-- Witness for the amended C5 rule: with "b" depending on the running "a",
a clean stopped report for "a" (not fatal) makes the handler bounce the
dependents of "a" from the parked state. -/
theorem gotStopped_bounce_rule_witness :
    gotStopped { isFatal := fun err => err = some (.msg "boom"), errorDelay := 5, bounceDelay := 2 }
      (runLoopAux { isFatal := fun err => err = some (.msg "boom"), errorDelay := 5, bounceDelay := 2 }
        initE
        [.install "a" { Inputs := [], Start := fun _ => (none, none), Output := none },
         .started "a" 1,
         .install "b" { Inputs := ["a"], Start := fun _ => (none, none), Output := none },
         .started "b" 2]).1
      "a" none =
    bounceDependents { isFatal := fun err => err = some (.msg "boom"), errorDelay := 5, bounceDelay := 2 }
      (gsRestart { isFatal := fun err => err = some (.msg "boom"), errorDelay := 5, bounceDelay := 2 }
        (runLoopAux { isFatal := fun err => err = some (.msg "boom"), errorDelay := 5, bounceDelay := 2 }
          initE
          [.install "a" { Inputs := [], Start := fun _ => (none, none), Output := none },
           .started "a" 1,
           .install "b" { Inputs := ["a"], Start := fun _ => (none, none), Output := none },
           .started "b" 2]).1
        "a" none)
      "a" :=
  (gotStopped_bounce_rule _ _ "a" none 1 (by decide)).1 (by decide)

end ClaimC5

section ClaimC10

theorem killT_dying_of_ne (e : EngineState) (r : Option Err)
    (h : r ≠ some Err.errDying) : (killT e r).dying = true := by
  unfold killT
  simp [h]

/-- C10: for every stopped report processed on a non-stopped entry, the fatal
predicate decides the whole outcome, and it is applied to the reported value
itself — including an absent value (nil, a clean worker exit) and the
`ErrDying` sentinel reported by a driver cancelled during shutdown (both are
just values of the error argument here).  When the predicate returns true
the handler kills the tomb with the reported value and relaunches nothing;
the park, error-delay and bounce-delay rules run only when it returns false;
and in particular a fatal predicate returning true on the absent value makes
the engine shut down, with no relaunch, on a clean worker exit. -/
theorem fatal_applied_to_all_reports (cfg : Config) (e : EngineState)
    (name : Name) (err : Option Err)
    (h1 : (currentGet e name).stopped = false) :
    (cfg.isFatal err = true →
      gotStopped cfg e name err = killT (gsReset e name) err ∧
      launchesFor (gotStopped cfg e name err) name = launchesFor e name) ∧
    (cfg.isFatal err = false →
      gotStopped cfg e name err =
        (if (currentGet e name).worker.isSome then
          bounceDependents cfg (gsRestart cfg e name err) name
        else gsRestart cfg e name err)) ∧
    (err = none → cfg.isFatal none = true →
      (gotStopped cfg e name err).dying = true ∧
      launchesFor (gotStopped cfg e name err) name = launchesFor e name) := by
  have hshape := gotStopped_eq cfg e name err h1
  refine ⟨?_, ?_, ?_⟩
  · intro hfat
    rw [hshape]
    simp only [hfat, if_true]
    refine ⟨trivial, ?_⟩
    unfold launchesFor
    rw [killT_launched, gsReset_launched]
  · intro hfat
    rw [hshape]
    simp [hfat]
  · intro hnone hfat
    subst hnone
    rw [hshape]
    simp only [hfat, if_true]
    refine ⟨killT_dying_of_ne _ none (by simp), ?_⟩
    unfold launchesFor
    rw [killT_launched, gsReset_launched]

/-- Witness for C10: a fatal predicate that classifies the absent error as
fatal makes a clean exit of "w" initiate shutdown with no relaunch. -/
theorem fatal_applied_to_all_reports_witness :
    (gotStopped { isFatal := fun err => err.isNone, errorDelay := 5, bounceDelay := 2 }
      (runLoopAux { isFatal := fun err => err.isNone, errorDelay := 5, bounceDelay := 2 } initE
        [.install "w" { Inputs := [], Start := fun _ => (none, none), Output := none },
         .started "w" 3]).1
      "w" none).dying = true ∧
    launchesFor
      (gotStopped { isFatal := fun err => err.isNone, errorDelay := 5, bounceDelay := 2 }
        (runLoopAux { isFatal := fun err => err.isNone, errorDelay := 5, bounceDelay := 2 } initE
          [.install "w" { Inputs := [], Start := fun _ => (none, none), Output := none },
           .started "w" 3]).1
        "w" none) "w" =
      launchesFor
        (runLoopAux { isFatal := fun err => err.isNone, errorDelay := 5, bounceDelay := 2 } initE
          [.install "w" { Inputs := [], Start := fun _ => (none, none), Output := none },
           .started "w" 3]).1 "w" :=
  (fatal_applied_to_all_reports _ _ "w" none (by decide)).2.2 rfl (by decide)

end ClaimC10

section StepLemmas

theorem start_dying_of_dying (e : EngineState) (name : Name) (delay : Nat)
    (h : e.dying = true) : (start e name delay).dying = true := by
  rw [start_of_dying e name delay h]
  exact h

theorem stopFold_fields (l : List Name) :
    ∀ acc : EngineState,
      (l.foldl stop acc).launched = acc.launched ∧
      (l.foldl stop acc).dying = acc.dying ∧
      (l.foldl stop acc).reason = acc.reason ∧
      (l.foldl stop acc).manifolds = acc.manifolds ∧
      (l.foldl stop acc).dependents = acc.dependents ∧
      (l.foldl stop acc).dyingObserved = acc.dyingObserved := by
  induction l with
  | nil => intro acc; exact ⟨rfl, rfl, rfl, rfl, rfl, rfl⟩
  | cons d t ih =>
    intro acc
    have h1 := stop_fields acc d
    have h2 := ih (stop acc d)
    simp only [List.foldl_cons]
    exact ⟨h2.1.trans h1.2.2.1, h2.2.1.trans h1.2.2.2.2.1,
      h2.2.2.1.trans h1.2.2.2.1, h2.2.2.2.1.trans h1.1,
      h2.2.2.2.2.1.trans h1.2.1, h2.2.2.2.2.2.trans h1.2.2.2.2.2⟩

theorem gotInstall_dying (e : EngineState) (name : Name) (m : Manifold)
    (h : e.dying = true) :
    (gotInstall e name m).2.launched = e.launched ∧
    (gotInstall e name m).2.dying = true := by
  by_cases hdup : (alistLookup e.manifolds name).isSome
  · simp [gotInstall, hdup, h]
  · cases hfind : m.Inputs.find? (fun input => (alistLookup e.manifolds input).isNone) with
    | some i => simp [gotInstall, hdup, hfind, h]
    | none =>
      constructor
      · simp [gotInstall, hdup, hfind, start_launched, h]
      · simp [gotInstall, hdup, hfind]
        apply start_dying_of_dying
        exact h

theorem gsRestart_dying_fields (cfg : Config) (e : EngineState) (name : Name)
    (err : Option Err) (h : e.dying = true) :
    (gsRestart cfg e name err).launched = e.launched ∧
    (gsRestart cfg e name err).dying = true := by
  unfold gsRestart
  by_cases hs : err.isSome
  · simp only [hs, if_true]
    rw [start_of_dying _ _ _ (show (gsReset e name).dying = true from h)]
    exact ⟨rfl, h⟩
  · simp only [hs, Bool.false_eq_true, if_false]
    by_cases hsp : (currentGet e name).stopping
    · simp only [hsp, if_true]
      rw [start_of_dying _ _ _ (show (gsReset e name).dying = true from h)]
      exact ⟨rfl, h⟩
    · simp only [hsp, Bool.false_eq_true, if_false]
      exact ⟨rfl, h⟩

theorem gotStarted_dying (cfg : Config) (e : EngineState) (name : Name)
    (w : WorkerId) (h : e.dying = true) :
    (gotStarted cfg e name w).launched = e.launched ∧
    (gotStarted cfg e name w).dying = true := by
  unfold gotStarted
  by_cases hw : (currentGet e name).worker.isSome
  · simp only [hw, if_true]
    exact ⟨killT_launched _ _, killT_dying_of_dying _ _ h⟩
  · simp only [hw, h, Bool.or_true, if_true, Bool.false_eq_true, if_false]
    exact ⟨by simp, by simp [h]⟩

theorem gotStopped_dying (cfg : Config) (e : EngineState) (name : Name)
    (err : Option Err) (h : e.dying = true) :
    (gotStopped cfg e name err).launched = e.launched ∧
    (gotStopped cfg e name err).dying = true := by
  by_cases h1 : (currentGet e name).stopped
  · have : gotStopped cfg e name err =
        killT e (some (.msg "fatal: unexpected %s manifold worker stop")) := by
      simp [gotStopped, h1]
    rw [this]
    exact ⟨killT_launched _ _, killT_dying_of_dying _ _ h⟩
  · rw [gotStopped_eq cfg e name err (by simpa using h1)]
    by_cases hfat : cfg.isFatal err
    · simp only [hfat, if_true]
      exact ⟨killT_launched _ _, killT_dying_of_dying _ _ h⟩
    · simp only [hfat, Bool.false_eq_true, if_false]
      have hrs := gsRestart_dying_fields cfg e name err h
      by_cases hw : (currentGet e name).worker.isSome
      · simp only [hw, if_true]
        have hb := bounceFold_dying cfg
          (dependentsGet (gsRestart cfg e name err) name)
          (gsRestart cfg e name err) hrs.2
        exact ⟨hb.1.trans hrs.1, hb.2⟩
      · simp only [hw, Bool.false_eq_true, if_false]
        exact hrs

theorem step_dying (cfg : Config) (e : EngineState) (ev : Event)
    (h : e.dying = true) :
    (step cfg e ev).launched = e.launched ∧ (step cfg e ev).dying = true := by
  cases ev with
  | install name m => exact gotInstall_dying e name m h
  | started name w => exact gotStarted_dying cfg e name w h
  | stopped name err => exact gotStopped_dying cfg e name err h
  | killEngine => exact ⟨killT_launched _ _, killT_dying_of_dying _ _ h⟩
  | observeDying =>
    unfold step
    by_cases hob : (e.dying && !e.dyingObserved)
    · simp only [hob, if_true]
      have hs := stopFold_fields (e.current.map Prod.fst) e
      unfold stopAll
      exact ⟨hs.1, by rw [hs.2.1]; exact h⟩
    · simp only [hob, Bool.false_eq_true, if_false]
      exact ⟨by simp, by simp [h]⟩

theorem runLoopAux_dying (cfg : Config) (t : List Event) :
    ∀ e : EngineState, e.dying = true →
      (runLoopAux cfg e t).1.launched = e.launched ∧
      (runLoopAux cfg e t).1.dying = true := by
  induction t with
  | nil => intro e h; exact ⟨rfl, h⟩
  | cons ev t ih =>
    intro e h
    have h1 := step_dying cfg e ev h
    unfold runLoopAux
    by_cases hdone : loopDone (step cfg e ev)
    · simp only [hdone, if_true]
      exact h1
    · simp only [hdone, Bool.false_eq_true, if_false]
      have h2 := ih (step cfg e ev) h1.2
      exact ⟨h2.1.trans h1.1, h2.2⟩

end StepLemmas

section ClaimC8

/-- C8: once the shutdown token is dying, `start` returns the state
unchanged — it marks nothing starting and spawns no driver — and therefore,
whatever events the loop goes on to process after shutdown has been
initiated, the launch log never grows: no new driver task is ever created
while the engine is dying (and the token never leaves the dying state). -/
theorem no_new_drivers_after_dying (cfg : Config) :
    (∀ (e : EngineState) (name : Name) (delay : Nat),
      e.dying = true → start e name delay = e) ∧
    (∀ (e : EngineState) (t : List Event), e.dying = true →
      (runLoopAux cfg e t).1.launched = e.launched ∧
      (runLoopAux cfg e t).1.dying = true) :=
  ⟨start_of_dying, fun e t h => runLoopAux_dying cfg t e h⟩

/-- Witness for C8 at a dying engine with one starting worker: a direct
start call is the identity, and draining the outstanding stopped report
leaves the launch log exactly as it was at shutdown. -/
theorem no_new_drivers_after_dying_witness :
    start
      (runLoopAux { isFatal := fun _ => false, errorDelay := 5, bounceDelay := 2 } initE
        [.install "w" { Inputs := [], Start := fun _ => (none, none), Output := none },
         .killEngine]).1 "w" 9 =
      (runLoopAux { isFatal := fun _ => false, errorDelay := 5, bounceDelay := 2 } initE
        [.install "w" { Inputs := [], Start := fun _ => (none, none), Output := none },
         .killEngine]).1 ∧
    (runLoopAux { isFatal := fun _ => false, errorDelay := 5, bounceDelay := 2 }
      (runLoopAux { isFatal := fun _ => false, errorDelay := 5, bounceDelay := 2 } initE
        [.install "w" { Inputs := [], Start := fun _ => (none, none), Output := none },
         .killEngine]).1
      [.stopped "w" (some (.msg "x")), .observeDying]).1.launched =
      (runLoopAux { isFatal := fun _ => false, errorDelay := 5, bounceDelay := 2 } initE
        [.install "w" { Inputs := [], Start := fun _ => (none, none), Output := none },
         .killEngine]).1.launched :=
  ⟨(no_new_drivers_after_dying { isFatal := fun _ => false, errorDelay := 5, bounceDelay := 2 }).1
      _ "w" 9 (by decide),
   ((no_new_drivers_after_dying { isFatal := fun _ => false, errorDelay := 5, bounceDelay := 2 }).2
      _ [.stopped "w" (some (.msg "x")), .observeDying] (by decide)).1⟩

end ClaimC8

section GraphLemmas

theorem GraphInv_congr (e1 e2 : EngineState) (hm : e2.manifolds = e1.manifolds)
    (hd : e2.dependents = e1.dependents) (h : GraphInv e1) : GraphInv e2 := by
  unfold GraphInv rank dependentsGet alistGetD at h ⊢
  rw [hm, hd]
  exact h

theorem gsRestart_manifolds (cfg : Config) (e : EngineState) (name : Name)
    (err : Option Err) :
    (gsRestart cfg e name err).manifolds = e.manifolds := by
  unfold gsRestart
  by_cases hs : err.isSome <;> by_cases hsp : (currentGet e name).stopping <;>
    simp [hs, hsp, (start_fields _ _ _).1] <;> rfl

theorem bounceDependents_manifolds (cfg : Config) (e : EngineState)
    (name : Name) :
    (bounceDependents cfg e name).manifolds = e.manifolds := by
  unfold bounceDependents
  exact (bounceFold_graph cfg _ e).1

theorem bounceDependents_dependents (cfg : Config) (e : EngineState)
    (name : Name) :
    (bounceDependents cfg e name).dependents = e.dependents := by
  unfold bounceDependents
  exact (bounceFold_graph cfg _ e).2.1

theorem gotStarted_graph (cfg : Config) (e : EngineState) (name : Name)
    (w : WorkerId) :
    (gotStarted cfg e name w).manifolds = e.manifolds ∧
    (gotStarted cfg e name w).dependents = e.dependents := by
  unfold gotStarted
  by_cases hw : (currentGet e name).worker.isSome
  · simp [hw, killT_manifolds, killT_dependents]
  · by_cases hsp : ((currentGet e name).stopping || e.dying)
    · simp [hw, hsp]
    · simp [hw, hsp, bounceDependents_manifolds, bounceDependents_dependents, gsAdopt]

theorem gotStopped_graph (cfg : Config) (e : EngineState) (name : Name)
    (err : Option Err) :
    (gotStopped cfg e name err).manifolds = e.manifolds ∧
    (gotStopped cfg e name err).dependents = e.dependents := by
  by_cases h1 : (currentGet e name).stopped
  · have heq : gotStopped cfg e name err =
        killT e (some (.msg "fatal: unexpected %s manifold worker stop")) := by
      simp [gotStopped, h1]
    rw [heq]
    exact ⟨killT_manifolds _ _, killT_dependents _ _⟩
  · rw [gotStopped_eq cfg e name err (by simpa using h1)]
    by_cases hfat : cfg.isFatal err
    · simp [hfat, killT_manifolds, killT_dependents, gsReset]
    · by_cases hw : (currentGet e name).worker.isSome
      · simp [hfat, hw, bounceDependents_manifolds, bounceDependents_dependents,
          gsRestart_manifolds, gsRestart_dependents]
      · simp [hfat, hw, gsRestart_manifolds, gsRestart_dependents]

theorem depsFold_mem (name : Name) (inputs : List Name) :
    ∀ (deps : List (Name × List Name)) (n d : Name),
      (d ∈ alistGetD
        (inputs.foldl
          (fun ds input => alistUpdate ds input (alistGetD ds input [] ++ [name]))
          deps) n []) ↔
      (d ∈ alistGetD deps n [] ∨ (d = name ∧ n ∈ inputs)) := by
  induction inputs with
  | nil => intro deps n d; simp
  | cons i t ih =>
    intro deps n d
    simp only [List.foldl_cons]
    rw [ih]
    by_cases hin : i = n
    · subst hin
      rw [show alistGetD (alistUpdate deps i (alistGetD deps i [] ++ [name])) i []
          = alistGetD deps i [] ++ [name] from by
        simp [alistGetD, alistLookup_update_self]]
      simp only [List.mem_append, List.mem_singleton, List.mem_cons]
      tauto
    · have hni : n ≠ i := fun hc => hin hc.symm
      rw [show alistGetD (alistUpdate deps i (alistGetD deps i [] ++ [name])) n []
          = alistGetD deps n [] from by
        simp [alistGetD, alistLookup_update_ne _ _ _ _ hin]]
      simp only [List.mem_cons, hni]
      tauto

theorem gotInstall_GraphInv (e : EngineState) (name : Name) (m : Manifold)
    (h : GraphInv e) : GraphInv (gotInstall e name m).2 := by
  by_cases hdup : (alistLookup e.manifolds name).isSome
  · simp [gotInstall, hdup]
    exact h
  · cases hfind : m.Inputs.find? (fun input => (alistLookup e.manifolds input).isNone) with
    | some i =>
      simp [gotInstall, hdup, hfind]
      exact h
    | none =>
      have hdup2 : alistLookup e.manifolds name = none := by
        cases hl : alistLookup e.manifolds name with
        | none => rfl
        | some v => rw [hl] at hdup; exact absurd rfl hdup
      have hall : ∀ a ∈ m.Inputs, (alistLookup e.manifolds a).isSome = true := by
        intro a ha
        have h1 := List.find?_eq_none.mp hfind a ha
        simp at h1
        exact Option.ne_none_iff_isSome.mp h1
      have hM : alistUpdate e.manifolds name m = e.manifolds ++ [(name, m)] :=
        alistUpdate_of_lookup_none e.manifolds name m hdup2
      have hstep : (gotInstall e name m).2 =
          start { e with
            manifolds := alistUpdate e.manifolds name m
            dependents := m.Inputs.foldl
              (fun deps input => alistUpdate deps input (alistGetD deps input [] ++ [name]))
              e.dependents
            current := alistUpdate e.current name {} } name 0 := by
        simp [gotInstall, hdup, hfind]
      rw [hstep]
      apply GraphInv_congr _ _ ((start_fields _ _ _).1) ((start_fields _ _ _).2.1)
      constructor
      · intro n d
        show d ∈ alistGetD (m.Inputs.foldl
            (fun deps input => alistUpdate deps input (alistGetD deps input [] ++ [name]))
            e.dependents) n [] ↔
          ∃ m1, alistLookup (alistUpdate e.manifolds name m) d = some m1 ∧
            n ∈ m1.Inputs
        rw [depsFold_mem name m.Inputs e.dependents n d]
        by_cases hdn : d = name
        · subst hdn
          rw [hM]
          rw [alistLookup_append_self e.manifolds d m hdup2]
          constructor
          · rintro (hold | ⟨_, hmem⟩)
            · obtain ⟨m1, hm1, _⟩ := (h.1 n d).mp hold
              rw [hdup2] at hm1
              cases hm1
            · exact ⟨m, rfl, hmem⟩
          · rintro ⟨m1, hm1, hmem⟩
            injection hm1 with hm2
            subst hm2
            exact Or.inr ⟨rfl, hmem⟩
        · rw [hM, alistLookup_append_ne e.manifolds name d m (fun hc => hdn hc.symm)]
          constructor
          · rintro (hold | ⟨hc, _⟩)
            · exact (h.1 n d).mp hold
            · exact absurd hc hdn
          · intro hex
            exact Or.inl ((h.1 n d).mpr hex)
      · intro d m1 hm1 i hi
        have hm1s : alistLookup (alistUpdate e.manifolds name m) d = some m1 := hm1
        rw [hM] at hm1s
        show keyRank (alistUpdate e.manifolds name m) i <
          keyRank (alistUpdate e.manifolds name m) d
        rw [hM]
        by_cases hdn : d = name
        · subst hdn
          rw [alistLookup_append_self e.manifolds d m hdup2] at hm1s
          injection hm1s with hm2
          subst hm2
          have hisome : (alistLookup e.manifolds i).isSome = true := hall i hi
          rw [keyRank_append_of_isSome e.manifolds _ i hisome,
            keyRank_append_self e.manifolds d _ hdup2]
          exact keyRank_lt_length_of_isSome e.manifolds i hisome
        · rw [alistLookup_append_ne e.manifolds name d m (fun hc => hdn hc.symm)] at hm1s
          have hds : (alistLookup e.manifolds d).isSome = true := by
            rw [hm1s]; rfl
          have hold := h.2 d m1 hm1s i hi
          have hdlt : keyRank e.manifolds d < e.manifolds.length :=
            keyRank_lt_length_of_isSome e.manifolds d hds
          have hisome : (alistLookup e.manifolds i).isSome = true := by
            cases hil : alistLookup e.manifolds i with
            | some v => rfl
            | none =>
              have := keyRank_eq_length_of_none e.manifolds i hil
              unfold rank at hold
              omega
          rw [keyRank_append_of_isSome e.manifolds _ i hisome,
            keyRank_append_of_isSome e.manifolds _ d hds]
          exact hold

theorem step_GraphInv (cfg : Config) (e : EngineState) (ev : Event)
    (h : GraphInv e) : GraphInv (step cfg e ev) := by
  cases ev with
  | install name m => exact gotInstall_GraphInv e name m h
  | started name w =>
    exact GraphInv_congr e _ (gotStarted_graph cfg e name w).1
      (gotStarted_graph cfg e name w).2 h
  | stopped name err =>
    exact GraphInv_congr e _ (gotStopped_graph cfg e name err).1
      (gotStopped_graph cfg e name err).2 h
  | killEngine =>
    exact GraphInv_congr e _ (killT_manifolds _ _) (killT_dependents _ _) h
  | observeDying =>
    unfold step
    by_cases hob : (e.dying && !e.dyingObserved)
    · simp only [hob, if_true]
      have hs := stopFold_fields (e.current.map Prod.fst) e
      exact GraphInv_congr e _ hs.2.2.2.1 hs.2.2.2.2.1 h
    · simp only [hob, Bool.false_eq_true, if_false]
      exact h

theorem runLoopAux_GraphInv (cfg : Config) (t : List Event) :
    ∀ e : EngineState, GraphInv e → GraphInv (runLoopAux cfg e t).1 := by
  induction t with
  | nil => intro e h; exact h
  | cons ev t ih =>
    intro e h
    have h1 := step_GraphInv cfg e ev h
    unfold runLoopAux
    by_cases hdone : loopDone (step cfg e ev)
    · simp only [hdone, if_true]
      exact h1
    · simp only [hdone, Bool.false_eq_true, if_false]
      exact ih (step cfg e ev) h1

theorem GraphInv_initE : GraphInv initE := by
  constructor
  · intro n d
    simp [initE, dependentsGet, alistGetD, alistLookup]
  · intro d m hm
    simp [initE, alistLookup] at hm

theorem chain_rank_lt (e : EngineState)
    (h2 : ∀ d m, alistLookup e.manifolds d = some m →
      ∀ i ∈ m.Inputs, rank e i < rank e d) :
    ∀ (l : List Name) (x : Name), List.Chain (EdgeTo e) x l →
      ∀ y ∈ l, rank e x < rank e y := by
  intro l
  induction l with
  | nil =>
    intro x _ y hy
    cases hy
  | cons z t ih =>
    intro x hch y hy
    cases hch with
    | cons hxz hzt =>
      obtain ⟨m, hm, hmem⟩ := hxz
      have hlt : rank e x < rank e z := h2 z m hm x hmem
      cases hy with
      | head => exact hlt
      | tail _ ht => exact lt_trans hlt (ih z hzt y ht)

theorem getLast?_mem {α : Type} (l : List α) (a : α)
    (h : l.getLast? = some a) : a ∈ l := by
  induction l with
  | nil => cases h
  | cons b t ih =>
    cases t with
    | nil =>
      simp [List.getLast?] at h
      simp [h]
    | cons c t2 =>
      rw [List.getLast?_cons_cons] at h
      exact List.mem_cons_of_mem b (ih h)

end GraphLemmas

section ClaimC7

/-- C7: after the loop has processed any sequence of events from the fresh
engine, `dependents` is exactly the transpose of the Inputs relation over
the installed manifolds (d is in dependents[n] iff n is among the Inputs of
manifolds[d]); the dependency relation has no self-loops and no cycles (a
cycle being a nonempty edge chain returning to its start); and an install
whose Inputs contain the manifold's own name always fails, in any state. -/
theorem dependents_transpose_acyclic (cfg : Config) (t : List Event) :
    (∀ n d, d ∈ dependentsGet (runLoopAux cfg initE t).1 n ↔
      ∃ m, alistLookup (runLoopAux cfg initE t).1.manifolds d = some m ∧
        n ∈ m.Inputs) ∧
    (∀ d m, alistLookup (runLoopAux cfg initE t).1.manifolds d = some m →
      d ∉ m.Inputs) ∧
    (¬∃ (x : Name) (l : List Name), l ≠ [] ∧
      List.Chain (EdgeTo (runLoopAux cfg initE t).1) x l ∧
      l.getLast? = some x) ∧
    (∀ (e2 : EngineState) (name : Name) (m : Manifold), name ∈ m.Inputs →
      (gotInstall e2 name m).1.isSome = true) := by
  have hinv := runLoopAux_GraphInv cfg t initE GraphInv_initE
  refine ⟨hinv.1, ?_, ?_, ?_⟩
  · intro d m hm hmem
    exact lt_irrefl _ (hinv.2 d m hm d hmem)
  · rintro ⟨x, l, hne, hch, hlast⟩
    have hx : x ∈ l := getLast?_mem l x hlast
    exact lt_irrefl _ (chain_rank_lt _ hinv.2 l x hch x hx)
  · intro e2 name m hmem
    by_cases hdup : (alistLookup e2.manifolds name).isSome
    · simp [gotInstall, hdup]
    · cases hfind : m.Inputs.find?
          (fun input => (alistLookup e2.manifolds input).isNone) with
      | some i => simp [gotInstall, hdup, hfind]
      | none =>
        have h1 := List.find?_eq_none.mp hfind name hmem
        simp at h1
        exact absurd h1 (by simpa using hdup)

/-- Witness for C7: after installing "a" and then "b" (which declares input
"a"), "b" is recorded as a dependent of "a", as the transpose direction
demands; and installing a manifold that lists itself fails in the fresh
engine. -/
theorem dependents_transpose_acyclic_witness :
    "b" ∈ dependentsGet
      (runLoopAux { isFatal := fun _ => false, errorDelay := 5, bounceDelay := 2 } initE
        [.install "a" { Inputs := [], Start := fun _ => (none, none), Output := none },
         .install "b" { Inputs := ["a"], Start := fun _ => (none, none), Output := none }]).1
      "a" ∧
    (gotInstall initE "selfish"
      { Inputs := ["selfish"], Start := fun _ => (none, none), Output := none }).1.isSome = true := by
  constructor
  · apply ((dependents_transpose_acyclic
      { isFatal := fun _ => false, errorDelay := 5, bounceDelay := 2 }
      [.install "a" { Inputs := [], Start := fun _ => (none, none), Output := none },
       .install "b" { Inputs := ["a"], Start := fun _ => (none, none), Output := none }]).1
      "a" "b").mpr
    exact ⟨{ Inputs := ["a"], Start := fun _ => (none, none), Output := none },
      by rfl, by decide⟩
  · exact (dependents_transpose_acyclic
      { isFatal := fun _ => false, errorDelay := 5, bounceDelay := 2 } []).2.2.2
      initE "selfish"
      { Inputs := ["selfish"], Start := fun _ => (none, none), Output := none }
      (by decide)

end ClaimC7

section InvariantLemmas

theorem DomInv_initE : DomInv initE := fun _ => rfl

theorem DepInv_initE : DepInv initE := by
  intro n d h
  simp [initE, dependentsGet, alistGetD, alistLookup] at h

theorem start_current (e : EngineState) (name : Name) (delay : Nat) :
    (start e name delay).current =
      if e.dying then e.current
      else alistUpdate e.current name { currentGet e name with starting := true } := by
  rw [start_unfold]
  by_cases hd : e.dying
  · simp [hd]
  · by_cases hm : (alistLookup e.manifolds name).isSome <;>
      by_cases hs : (currentGet e name).stopped <;>
      simp [hd, hm, hs, killT_current]

theorem start_DomInv (e : EngineState) (name : Name) (delay : Nat)
    (hD : DomInv e) (hm : (alistLookup e.manifolds name).isSome = true) :
    DomInv (start e name delay) := by
  intro n
  rw [show (start e name delay).manifolds = e.manifolds from (start_fields _ _ _).1,
    start_current]
  by_cases hd : e.dying
  · simp only [hd, if_true]
    exact hD n
  · simp only [hd, Bool.false_eq_true, if_false]
    exact DomInv_update e name _ hD hm n

theorem stop_current (e : EngineState) (name : Name) :
    (stop e name).current =
      if ((currentGet e name).stopping || (currentGet e name).stopped) then e.current
      else alistUpdate e.current name { currentGet e name with stopping := true } := by
  cases hinfo : currentGet e name with
  | mk st sp w =>
    cases sp <;> cases w <;> cases st <;>
      simp [stop, hinfo, WorkerInfo.stopped]

theorem stop_DomInv (e : EngineState) (name : Name) (hD : DomInv e) :
    DomInv (stop e name) := by
  intro n
  rw [show (stop e name).manifolds = e.manifolds from (stop_fields _ _).1,
    stop_current]
  by_cases hc : ((currentGet e name).stopping || (currentGet e name).stopped)
  · simp only [hc, if_true]
    exact hD n
  · simp only [hc, Bool.false_eq_true, if_false]
    have hst : (currentGet e name).stopped = false := by
      cases hs : (currentGet e name).stopped
      · rfl
      · rw [hs] at hc
        simp at hc
    have hpres : (alistLookup e.current name).isSome = true :=
      lookup_isSome_of_not_stopped e name hst
    have hm : (alistLookup e.manifolds name).isSome = true := by
      rw [← hD name]
      exact hpres
    exact DomInv_update e name _ hD hm n

theorem gotInstall_noKill (e : EngineState) (name : Name) (m : Manifold) :
    (gotInstall e name m).2.reason = e.reason ∧
    (gotInstall e name m).2.dying = e.dying := by
  by_cases hdup : (alistLookup e.manifolds name).isSome
  · simp [gotInstall, hdup]
  · cases hfind : m.Inputs.find? (fun input => (alistLookup e.manifolds input).isNone) with
    | some i => simp [gotInstall, hdup, hfind]
    | none =>
      have hstep : (gotInstall e name m).2 =
          start { e with
            manifolds := alistUpdate e.manifolds name m
            dependents := m.Inputs.foldl
              (fun deps input => alistUpdate deps input (alistGetD deps input [] ++ [name]))
              e.dependents
            current := alistUpdate e.current name {} } name 0 := by
        simp [gotInstall, hdup, hfind]
      rw [hstep]
      apply start_noKill
      · show (alistLookup (alistUpdate e.manifolds name m) name).isSome = true
        rw [alistLookup_update_self]
        rfl
      · show ((alistGetD (alistUpdate e.current name {}) name
          ({} : WorkerInfo))).stopped = true
        unfold alistGetD
        rw [alistLookup_update_self]
        rfl

theorem gotInstall_DomInv (e : EngineState) (name : Name) (m : Manifold)
    (hD : DomInv e) : DomInv (gotInstall e name m).2 := by
  by_cases hdup : (alistLookup e.manifolds name).isSome
  · simp [gotInstall, hdup]
    exact hD
  · cases hfind : m.Inputs.find? (fun input => (alistLookup e.manifolds input).isNone) with
    | some i =>
      simp [gotInstall, hdup, hfind]
      exact hD
    | none =>
      have hstep : (gotInstall e name m).2 =
          start { e with
            manifolds := alistUpdate e.manifolds name m
            dependents := m.Inputs.foldl
              (fun deps input => alistUpdate deps input (alistGetD deps input [] ++ [name]))
              e.dependents
            current := alistUpdate e.current name {} } name 0 := by
        simp [gotInstall, hdup, hfind]
      rw [hstep]
      apply start_DomInv
      · intro n
        show (alistLookup (alistUpdate e.current name {}) n).isSome =
          (alistLookup (alistUpdate e.manifolds name m) n).isSome
        rw [alistLookup_update_isSome, alistLookup_update_isSome, hD n]
      · show (alistLookup (alistUpdate e.manifolds name m) name).isSome = true
        rw [alistLookup_update_self]
        rfl

theorem gotInstall_DepInv (e : EngineState) (name : Name) (m : Manifold)
    (hP : DepInv e) : DepInv (gotInstall e name m).2 := by
  by_cases hdup : (alistLookup e.manifolds name).isSome
  · simp [gotInstall, hdup]
    exact hP
  · cases hfind : m.Inputs.find? (fun input => (alistLookup e.manifolds input).isNone) with
    | some i =>
      simp [gotInstall, hdup, hfind]
      exact hP
    | none =>
      have hstep : (gotInstall e name m).2 =
          start { e with
            manifolds := alistUpdate e.manifolds name m
            dependents := m.Inputs.foldl
              (fun deps input => alistUpdate deps input (alistGetD deps input [] ++ [name]))
              e.dependents
            current := alistUpdate e.current name {} } name 0 := by
        simp [gotInstall, hdup, hfind]
      rw [hstep]
      apply DepInv_of_graph _ _ ((start_fields _ _ _).1) ((start_fields _ _ _).2.1)
      intro n d hmem
      show (alistLookup (alistUpdate e.manifolds name m) d).isSome = true
      have hmem2 : d ∈ alistGetD (m.Inputs.foldl
          (fun deps input => alistUpdate deps input (alistGetD deps input [] ++ [name]))
          e.dependents) n [] := hmem
      rw [depsFold_mem name m.Inputs e.dependents n d] at hmem2
      rw [alistLookup_update_isSome]
      cases hmem2 with
      | inl hold =>
        rw [hP n d hold]
        rfl
      | inr hnew =>
        rw [hnew.1]
        simp

end InvariantLemmas

section ReasonLemmas

theorem waitResult_congr (e1 e2 : EngineState) (h : e1.reason = e2.reason) :
    waitResult e1 = waitResult e2 := by
  unfold waitResult
  rw [h]

theorem optionOr_none (a : Option Err) : a.or none = a := by
  cases a <;> rfl

theorem gsRestart_noKill (cfg : Config) (e : EngineState) (name : Name)
    (err : Option Err) (hm : (alistLookup e.manifolds name).isSome = true) :
    (gsRestart cfg e name err).reason = e.reason ∧
    (gsRestart cfg e name err).dying = e.dying := by
  unfold gsRestart
  have hm2 : (alistLookup (gsReset e name).manifolds name).isSome = true := hm
  have hs2 : (currentGet (gsReset e name) name).stopped = true := by
    rw [currentGet_gsReset_self]
    rfl
  by_cases hs : err.isSome
  · simp only [hs, if_true]
    exact ⟨(start_noKill _ _ _ hm2 hs2).1, (start_noKill _ _ _ hm2 hs2).2⟩
  · simp only [hs, Bool.false_eq_true, if_false]
    by_cases hsp : (currentGet e name).stopping
    · simp only [hsp, if_true]
      exact ⟨(start_noKill _ _ _ hm2 hs2).1, (start_noKill _ _ _ hm2 hs2).2⟩
    · simp only [hsp, Bool.false_eq_true, if_false]
      exact ⟨rfl, rfl⟩

theorem gotStarted_clean (cfg : Config) (e : EngineState) (name : Name)
    (w : WorkerId) (hD : DomInv e) (hP : DepInv e)
    (hpres : (alistLookup e.current name).isSome = true)
    (hw : (currentGet e name).worker = none) :
    (gotStarted cfg e name w).reason = e.reason ∧
    DomInv (gotStarted cfg e name w) := by
  unfold gotStarted
  have hw2 : (currentGet e name).worker.isSome = false := by
    rw [hw]
    rfl
  simp only [hw2, Bool.false_eq_true, if_false]
  by_cases hsp : ((currentGet e name).stopping || e.dying)
  · simp only [hsp, if_true]
    exact ⟨by simp, fun n => hD n⟩
  · simp only [hsp, Bool.false_eq_true, if_false]
    have hD1 : DomInv (gsAdopt e name w) := by
      intro n
      show (alistLookup (alistUpdate e.current name _) n).isSome = _
      exact DomInv_update e name _ hD (by rw [← hD name]; exact hpres) n
    have hmlist : ∀ d ∈ dependentsGet (gsAdopt e name w) name,
        (alistLookup (gsAdopt e name w).manifolds d).isSome = true := by
      intro d hd
      exact hP name d hd
    constructor
    · unfold bounceDependents
      exact (bounceFold_noKill cfg _ _ hmlist).1
    · unfold bounceDependents
      exact bounceFold_DomInv cfg _ _ hD1 hmlist

theorem gotStopped_clean (cfg : Config) (e : EngineState) (name : Name)
    (err : Option Err) (hD : DomInv e) (hP : DepInv e)
    (hsane : cfg.isFatal (some Err.errDying) = false)
    (h1 : (currentGet e name).stopped = false) :
    waitResult (gotStopped cfg e name err) =
      (waitResult e).or (if cfg.isFatal err then err else none) ∧
    DomInv (gotStopped cfg e name err) := by
  have hpres : (alistLookup e.current name).isSome = true :=
    lookup_isSome_of_not_stopped e name h1
  have hm : (alistLookup e.manifolds name).isSome = true := by
    rw [← hD name]
    exact hpres
  have hDreset : DomInv (gsReset e name) := by
    intro n
    show (alistLookup (alistUpdate e.current name {}) n).isSome = _
    exact DomInv_update e name _ hD hm n
  rw [gotStopped_eq cfg e name err h1]
  by_cases hfat : cfg.isFatal err
  · simp only [hfat, if_true]
    constructor
    · have herr : err ≠ some Err.errDying := by
        intro hcon
        rw [hcon, hsane] at hfat
        cases hfat
      rw [waitResult_killT _ _ herr]
      rfl
    · intro n
      have hcur : (killT (gsReset e name) err).current = (gsReset e name).current :=
        killT_current _ _
      have hman : (killT (gsReset e name) err).manifolds = (gsReset e name).manifolds :=
        killT_manifolds _ _
      rw [hcur, hman]
      exact hDreset n
  · simp only [hfat, Bool.false_eq_true, if_false]
    have hrs := gsRestart_noKill cfg e name err hm
    have hDrs : DomInv (gsRestart cfg e name err) := by
      unfold gsRestart
      by_cases hs : err.isSome
      · simp only [hs, if_true]
        exact start_DomInv _ _ _ hDreset hm
      · simp only [hs, Bool.false_eq_true, if_false]
        by_cases hsp : (currentGet e name).stopping
        · simp only [hsp, if_true]
          exact start_DomInv _ _ _ hDreset hm
        · simp only [hsp, Bool.false_eq_true, if_false]
          exact hDreset
    by_cases hw : (currentGet e name).worker.isSome
    · simp only [hw, if_true]
      have hmlist : ∀ d ∈ dependentsGet (gsRestart cfg e name err) name,
          (alistLookup (gsRestart cfg e name err).manifolds d).isSome = true := by
        intro d hd
        rw [gsRestart_manifolds]
        apply hP name d
        rw [← dependentsGet_eq_of (gsRestart cfg e name err) e
          (gsRestart_dependents cfg e name err) name]
        exact hd
      have hb := bounceFold_noKill cfg (dependentsGet (gsRestart cfg e name err) name)
        (gsRestart cfg e name err) hmlist
      constructor
      · unfold bounceDependents
        rw [waitResult_congr _ _ (hb.1.trans hrs.1)]
        simp [hfat, optionOr_none]
      · unfold bounceDependents
        exact bounceFold_DomInv cfg _ _ hDrs hmlist
    · simp only [hw, Bool.false_eq_true, if_false]
      constructor
      · rw [waitResult_congr _ _ hrs.1]
        simp [hfat, optionOr_none]
      · exact hDrs

theorem stopFold_DomInv (l : List Name) :
    ∀ acc : EngineState, DomInv acc → DomInv (l.foldl stop acc) := by
  induction l with
  | nil => intro acc h; exact h
  | cons d t ih =>
    intro acc h
    simp only [List.foldl_cons]
    exact ih (stop acc d) (stop_DomInv acc d h)

theorem step_clean (cfg : Config) (e : EngineState) (ev : Event)
    (hD : DomInv e) (hP : DepInv e)
    (hsane : cfg.isFatal (some Err.errDying) = false)
    (hc : cleanEvent e ev = true) :
    waitResult (step cfg e ev) = (waitResult e).or (fatalOf cfg ev) ∧
    DomInv (step cfg e ev) ∧ DepInv (step cfg e ev) := by
  cases ev with
  | install name m =>
    refine ⟨?_, gotInstall_DomInv e name m hD, gotInstall_DepInv e name m hP⟩
    show waitResult (gotInstall e name m).2 = (waitResult e).or none
    rw [waitResult_congr _ _ (gotInstall_noKill e name m).1]
    exact (optionOr_none _).symm
  | started name w =>
    simp only [cleanEvent, Bool.and_eq_true] at hc
    have hw : (currentGet e name).worker = none := by
      have := hc.2
      simpa [Option.isNone_iff_eq_none] using this
    have hg := gotStarted_clean cfg e name w hD hP hc.1 hw
    refine ⟨?_, hg.2, ?_⟩
    · show waitResult (gotStarted cfg e name w) = (waitResult e).or none
      rw [waitResult_congr _ _ hg.1]
      exact (optionOr_none _).symm
    · exact DepInv_of_graph e _ (gotStarted_graph cfg e name w).1
        (gotStarted_graph cfg e name w).2 hP
  | stopped name err =>
    simp only [cleanEvent, Bool.not_eq_true'] at hc
    have hg := gotStopped_clean cfg e name err hD hP hsane hc
    refine ⟨hg.1, hg.2, ?_⟩
    exact DepInv_of_graph e _ (gotStopped_graph cfg e name err).1
      (gotStopped_graph cfg e name err).2 hP
  | killEngine =>
    refine ⟨?_, ?_, ?_⟩
    · show waitResult (killT e none) = (waitResult e).or none
      exact waitResult_killT e none (by simp)
    · intro n
      show (alistLookup (killT e none).current n).isSome =
        (alistLookup (killT e none).manifolds n).isSome
      rw [killT_current, killT_manifolds]
      exact hD n
    · exact DepInv_of_graph e _ (killT_manifolds _ _) (killT_dependents _ _) hP
  | observeDying =>
    unfold step
    by_cases hob : (e.dying && !e.dyingObserved)
    · simp only [hob, if_true]
      have hs := stopFold_fields (e.current.map Prod.fst) e
      refine ⟨?_, ?_, ?_⟩
      · show waitResult { stopAll e with dyingObserved := true } = (waitResult e).or none
        rw [waitResult_congr { stopAll e with dyingObserved := true } e
          (show (stopAll e).reason = e.reason from hs.2.2.1)]
        exact (optionOr_none _).symm
      · intro n
        show (alistLookup (stopAll e).current n).isSome =
          (alistLookup (stopAll e).manifolds n).isSome
        exact stopFold_DomInv (e.current.map Prod.fst) e hD n
      · exact DepInv_of_graph e _ (show ({ stopAll e with dyingObserved := true } :
          EngineState).manifolds = e.manifolds from hs.2.2.2.1)
          (show ({ stopAll e with dyingObserved := true } :
            EngineState).dependents = e.dependents from hs.2.2.2.2.1) hP
    · simp only [hob, Bool.false_eq_true, if_false]
      exact ⟨(optionOr_none _).symm, hD, hP⟩

theorem firstFatal_nil (cfg : Config) : firstFatal cfg [] = none := rfl

theorem firstFatal_cons (cfg : Config) (ev : Event) (t : List Event) :
    firstFatal cfg (ev :: t) = (fatalOf cfg ev).or (firstFatal cfg t) := by
  unfold firstFatal
  simp only [List.filterMap_cons]
  cases hf : fatalOf cfg ev
  · simp
  · simp [List.head?]

theorem optionOr_assoc (a b c : Option Err) : (a.or b).or c = a.or (b.or c) := by
  cases a <;> rfl

theorem runLoopAux_waitResult (cfg : Config)
    (hsane : cfg.isFatal (some Err.errDying) = false) :
    ∀ (t : List Event) (e : EngineState), DomInv e → DepInv e →
      cleanTrace cfg e t = true →
      ∃ pre, t = pre ++ (runLoopAux cfg e t).2 ∧
        waitResult (runLoopAux cfg e t).1 =
          (waitResult e).or (firstFatal cfg pre) := by
  intro t
  induction t with
  | nil =>
    intro e _ _ _
    exact ⟨[], rfl, (optionOr_none _).symm⟩
  | cons ev t ih =>
    intro e hD hP hclean
    have hc : cleanEvent e ev = true ∧ cleanTrace cfg (step cfg e ev) t = true := by
      simpa [cleanTrace, Bool.and_eq_true] using hclean
    have hstep := step_clean cfg e ev hD hP hsane hc.1
    unfold runLoopAux
    by_cases hdone : loopDone (step cfg e ev)
    · simp only [hdone, if_true]
      refine ⟨[ev], rfl, ?_⟩
      rw [hstep.1, firstFatal_cons, firstFatal_nil, optionOr_none]
    · simp only [hdone, Bool.false_eq_true, if_false]
      obtain ⟨pre, hpre, hwr⟩ := ih (step cfg e ev) hstep.2.1 hstep.2.2 hc.2
      refine ⟨ev :: pre, by rw [List.cons_append, ← hpre], ?_⟩
      rw [hwr, hstep.1, firstFatal_cons, optionOr_assoc]

end ReasonLemmas

section ClaimC3

/-- C3: `Wait` yields the tomb's recorded reason once the loop has exited.
Over any queue of events that is clean (no protocol violation: every stopped
report finds a non-stopped entry, every started report finds an installed
entry with no worker — the shape every driver-generated run has) and under a
fatal predicate that does not classify the `ErrDying` sentinel as fatal, the
loop processes a prefix of the queue up to its exit point, and `Wait` returns
exactly the first non-nil worker error classified fatal in that processed
prefix — that error having been captured when its stopped notification was
processed, since later kills cannot override the first non-nil reason; if no
worker error was classified fatal, `Wait` returns the nil reason recorded by
the dying shutdown token (the dying sentinel of a normal shutdown, the
loop's final `tomb.ErrDying` return being absorbed by `Kill(ErrDying)`). -/
theorem wait_terminal_error (cfg : Config) (t : List Event)
    (hsane : cfg.isFatal (some Err.errDying) = false)
    (hclean : cleanTrace cfg initE t = true) :
    ∃ pre, t = pre ++ (runLoopAux cfg initE t).2 ∧
      waitResult (runLoopAux cfg initE t).1 = firstFatal cfg pre := by
  obtain ⟨pre, h1, h2⟩ :=
    runLoopAux_waitResult cfg hsane t initE DomInv_initE DepInv_initE hclean
  refine ⟨pre, h1, ?_⟩
  rw [h2]
  rfl

/-- Witness for C3: a run that installs "a", sees its worker start and then
fail with the fatal error "boom" processes the whole queue, exits, and Wait
returns "boom". -/
theorem wait_terminal_error_witness :
    ∃ pre,
      ([.install "a" { Inputs := [], Start := fun _ => (none, none), Output := none },
        .started "a" 7,
        .stopped "a" (some (.msg "boom"))] : List Event) =
        pre ++ (runLoopAux { isFatal := fun err => err = some (.msg "boom"), errorDelay := 5, bounceDelay := 2 }
          initE
          [.install "a" { Inputs := [], Start := fun _ => (none, none), Output := none },
           .started "a" 7,
           .stopped "a" (some (.msg "boom"))]).2 ∧
      waitResult (runLoopAux { isFatal := fun err => err = some (.msg "boom"), errorDelay := 5, bounceDelay := 2 }
        initE
        [.install "a" { Inputs := [], Start := fun _ => (none, none), Output := none },
         .started "a" 7,
         .stopped "a" (some (.msg "boom"))]).1 =
        firstFatal { isFatal := fun err => err = some (.msg "boom"), errorDelay := 5, bounceDelay := 2 } pre :=
  wait_terminal_error { isFatal := fun err => err = some (.msg "boom"), errorDelay := 5, bounceDelay := 2 }
    [.install "a" { Inputs := [], Start := fun _ => (none, none), Output := none },
     .started "a" 7,
     .stopped "a" (some (.msg "boom"))]
    (by decide) (by decide)

end ClaimC3

end DependencyEngine
